import Mathlib

/-!
I2C transaction core of the STM32F7xx grblHAL driver (Src/i2c.c)

A shallow embedding of the functions of `Src/i2c.c` that talk to the bus:
`i2c_probe`, `i2c_send`, `i2c_receive`, `i2c_get_keycode`,
`HAL_I2C_MasterRxCpltCallback`, `i2c_nvs_transfer`, `TMC_I2C_ReadRegister`
and `TMC_I2C_WriteRegister`.

The STM32 HAL, the grblHAL `hal` table and the Trinamic mapping table are
external to the file.  Their answers are taken from an arbitrary environment
(fields of `World`), every call to them is appended to a chronological log,
and the two file-scope statics `keycode` and `keypad_callback` are fields of
the state.  Loops that poll the bus carry a fuel argument: `none` means that
the fuel ran out before the loop was left.
-/

namespace I2C

/-! ## External types -/

/-- Modelled from the spec: the states of the bus handle (idle,
busy-transmitting, busy-receiving, error); the enumeration itself is declared
in the STM32 HAL headers, which are not part of the source file. -/
inductive HAL_I2C_StateTypeDef
  | HAL_I2C_STATE_READY
  | HAL_I2C_STATE_BUSY_TX
  | HAL_I2C_STATE_BUSY_RX
  | HAL_I2C_STATE_ERROR
  deriving DecidableEq

/-- Modelled from the spec: the outcome of a HAL call (success, peripheral
error, bus busy, timeout); declared in the STM32 HAL headers. -/
inductive HAL_StatusTypeDef
  | HAL_OK
  | HAL_ERROR
  | HAL_BUSY
  | HAL_TIMEOUT
  deriving DecidableEq

/-- Modelled from the spec: the width of the memory address of a
memory-addressed transfer (1 or 2 bytes); the two macros are declared in the
STM32 HAL headers. -/
inductive MemAddSize
  | I2C_MEMADD_SIZE_8BIT
  | I2C_MEMADD_SIZE_16BIT
  deriving DecidableEq

/-- Modelled from the spec: the result of a storage transfer (OK or Failed);
declared in grbl/nvs.h. -/
inductive nvs_transfer_result_t
  | NVS_TransferResult_Failed
  | NVS_TransferResult_OK
  deriving DecidableEq

/-- Modelled from the spec: the storage transfer descriptor, with the fields
that `i2c_nvs_transfer` reads (device address, word address and its width in
bytes, byte count, data pointer); declared in grbl/nvs.h.  The data pointer is
an address. -/
structure nvs_transfer_t where
  address : Nat
  word_addr_bytes : Nat
  word_addr : Nat
  count : Nat
  data : Nat
  deriving DecidableEq

/-- Modelled from the spec: a logical register address of a motor driver, a
7-bit index with a write-intent flag; declared in the Trinamic library. -/
structure TMC_addr_t where
  idx : Nat
  write : Nat
  deriving DecidableEq

/-- Modelled from the spec: the motor-driver register descriptor (logical
address with write-intent flag, 32-bit payload); declared in the Trinamic
library. -/
structure TMC2130_datagram_t where
  addr : TMC_addr_t
  payload : Nat
  deriving DecidableEq

/-- Modelled from the spec: the driver context, of which the bridge only reads
the chip-select identity; declared in the Trinamic library. -/
structure TMC2130_t where
  cs_pin : Nat
  deriving DecidableEq

/-- The argument passed as `pData` to a HAL transfer: a pointer into memory
owned by the caller, the address of the static `keycode`, or a local array
(recorded with its contents at the time of the call). -/
inductive Buf
  | ptr (p : Nat)
  | keycode
  | stack (bytes : List Nat)
  deriving DecidableEq

/-! ## Calls to the outside world -/

/-- One call made by the code to the HAL or to grblHAL, with its arguments
(for the two polls: with the answer received). -/
inductive Event
  | GetState (s : HAL_I2C_StateTypeDef)
  | stream_blocking_callback (alive : Bool)
  | IsDeviceReady (DevAddress Trials Timeout : Nat)
  | Master_Transmit_IT (DevAddress : Nat) (pData : Buf) (Size : Nat)
  | Master_Receive_IT (DevAddress : Nat) (pData : Buf) (Size : Nat)
  | Mem_Read (DevAddress MemAddress : Nat) (sz : MemAddSize) (pData : Buf) (Size Timeout : Nat)
  | Mem_Write (DevAddress MemAddress : Nat) (sz : MemAddSize) (pData : Buf) (Size Timeout : Nat)
  | delay_ms (ms : Nat)
  | keypad_callback (cb : Nat) (keycode : Nat)
  deriving DecidableEq

/-- The events that put a transaction on the bus. -/
def Event.isBusOp : Event → Bool
  | .IsDeviceReady _ _ _ => true
  | .Master_Transmit_IT _ _ _ => true
  | .Master_Receive_IT _ _ _ => true
  | .Mem_Read _ _ _ _ _ _ => true
  | .Mem_Write _ _ _ _ _ _ => true
  | _ => false

/-- The device address a bus operation hands to the peripheral. -/
def Event.devAddress : Event → Option Nat
  | .IsDeviceReady d _ _ => some d
  | .Master_Transmit_IT d _ _ => some d
  | .Master_Receive_IT d _ _ => some d
  | .Mem_Read d _ _ _ _ _ => some d
  | .Mem_Write d _ _ _ _ _ => some d
  | _ => none

/-- Compile-time configuration the source file takes from headers that are not
part of it: the 7-bit address of the Trinamic I2C bridge and whether the
storage device is FRAM. -/
structure Config where
  I2C_ADR_I2CBRIDGE : Nat
  EEPROM_IS_FRAM : Bool

/-- The environment and the state of the module.

* `busState k` is the answer to the `k`-th call of `HAL_I2C_GetState`,
  `blocking k` the answer to the `k`-th call of
  `hal.stream_blocking_callback`, `halResult k` the status of the `k`-th HAL
  transfer call and `rx k i` the byte found in `buffer[i]` when the `k`-th
  HAL call, a read into a local buffer, returns;
* `TMCI2C_GetMapAddress axis reg` is the `.value` of the external address
  translation;
* `polls`, `calls`, `ops` count the calls made so far;
* `keycode`, `keypad_callback` are the two statics of the file (a callback is
  a function pointer, `none` is `NULL`);
* `log` lists the calls made so far, oldest first. -/
structure World where
  busState : Nat → HAL_I2C_StateTypeDef
  blocking : Nat → Bool
  halResult : Nat → HAL_StatusTypeDef
  rx : Nat → Nat → Nat
  TMCI2C_GetMapAddress : Nat → TMC_addr_t → Nat
  polls : Nat
  calls : Nat
  ops : Nat
  keycode : Nat
  keypad_callback : Option Nat
  log : List Event

open HAL_I2C_StateTypeDef HAL_StatusTypeDef MemAddSize nvs_transfer_result_t

/-- `HAL_I2C_GetState(&i2c_port)`. -/
def HAL_I2C_GetState (w : World) : HAL_I2C_StateTypeDef × World :=
  (w.busState w.polls,
   { w with polls := w.polls + 1, log := w.log ++ [Event.GetState (w.busState w.polls)] })

/-- `hal.stream_blocking_callback()`. -/
def stream_blocking_callback (w : World) : Bool × World :=
  (w.blocking w.calls,
   { w with calls := w.calls + 1,
            log := w.log ++ [Event.stream_blocking_callback (w.blocking w.calls)] })

/-- A HAL transfer call: logged, answered by the environment. -/
def halCall (w : World) (e : Event) : HAL_StatusTypeDef × World :=
  (w.halResult w.ops, { w with ops := w.ops + 1, log := w.log ++ [e] })

/-- `HAL_I2C_IsDeviceReady(&i2c_port, DevAddress, Trials, Timeout)`. -/
def HAL_I2C_IsDeviceReady (w : World) (DevAddress Trials Timeout : Nat) :
    HAL_StatusTypeDef × World :=
  halCall w (Event.IsDeviceReady DevAddress Trials Timeout)

/-- `HAL_I2C_Master_Transmit_IT(&i2c_port, DevAddress, pData, Size)`. -/
def HAL_I2C_Master_Transmit_IT (w : World) (DevAddress : Nat) (pData : Buf) (Size : Nat) :
    HAL_StatusTypeDef × World :=
  halCall w (Event.Master_Transmit_IT DevAddress pData Size)

/-- `HAL_I2C_Master_Receive_IT(&i2c_port, DevAddress, pData, Size)`. -/
def HAL_I2C_Master_Receive_IT (w : World) (DevAddress : Nat) (pData : Buf) (Size : Nat) :
    HAL_StatusTypeDef × World :=
  halCall w (Event.Master_Receive_IT DevAddress pData Size)

/-- `HAL_I2C_Mem_Write(&i2c_port, DevAddress, MemAddress, MemAddSize, pData,
Size, Timeout)`. -/
def HAL_I2C_Mem_Write (w : World) (DevAddress MemAddress : Nat) (sz : MemAddSize)
    (pData : Buf) (Size Timeout : Nat) : HAL_StatusTypeDef × World :=
  halCall w (Event.Mem_Write DevAddress MemAddress sz pData Size Timeout)

/-- `HAL_I2C_Mem_Read(&i2c_port, DevAddress, MemAddress, MemAddSize, pData,
Size, Timeout)`: besides the status, the bytes the buffer holds when the call
returns. -/
def HAL_I2C_Mem_Read (w : World) (DevAddress MemAddress : Nat) (sz : MemAddSize)
    (pData : Buf) (Size Timeout : Nat) : HAL_StatusTypeDef × List Nat × World :=
  (w.halResult w.ops, (List.range Size).map (fun i => w.rx w.ops i % 2 ^ 8),
   { w with ops := w.ops + 1,
            log := w.log ++ [Event.Mem_Read DevAddress MemAddress sz pData Size Timeout] })

/-- `hal.delay_ms(ms, NULL)`. -/
def delay_ms (w : World) (ms : Nat) : World :=
  { w with log := w.log ++ [Event.delay_ms ms] }

/-! ## Machine arithmetic -/

/-- The expression `i2cAddr << 1` of type `uint_fast16_t` (32 bits on the
target), converted to the `uint16_t DevAddress` parameter of the HAL. -/
def wire_address (i2cAddr : Nat) : Nat :=
  ((i2cAddr <<< 1) % 2 ^ 32) % 2 ^ 16

/-- A value brought into the range of a 32-bit `int` (two's complement). -/
def int32_wrap (i : Int) : Int :=
  (i + 2 ^ 31) % 2 ^ 32 - 2 ^ 31

/-- The expression `b << n` for a `uint8_t b`: `b` is promoted to `int`, the
result is a 32-bit `int`. -/
def shl_int (b : Nat) (n : Nat) : Int :=
  int32_wrap ((b : Int) * 2 ^ n)

/-- Conversion of an `int` to `uint32_t`. -/
def to_uint32 (i : Int) : Nat :=
  (i % 2 ^ 32).toNat

/-! ## The functions of i2c.c -/

/-- The loop
`while (HAL_I2C_GetState(&i2c_port) != HAL_I2C_STATE_READY) { if(!hal.stream_blocking_callback()) return false; }`
that opens `i2c_probe`, `i2c_send` and `i2c_receive` and follows a started
blocking transfer.  `some (false, _)` is the `return false` inside the loop,
`some (true, _)` is leaving the loop. -/
def wait_ready : Nat → World → Option (Bool × World)
  | 0, _ => none
  | fuel + 1, w =>
    let (s, w1) := HAL_I2C_GetState w
    if s ≠ HAL_I2C_STATE_READY then
      let (alive, w2) := stream_blocking_callback w1
      if !alive then some (false, w2)
      else wait_ready fuel w2
    else some (true, w1)

/-- The loop `while (HAL_I2C_GetState(&i2c_port) != HAL_I2C_STATE_READY);`
of `i2c_nvs_transfer`. -/
def busy_wait : Nat → World → Option World
  | 0, _ => none
  | fuel + 1, w =>
    let (s, w1) := HAL_I2C_GetState w
    if s ≠ HAL_I2C_STATE_READY then busy_wait fuel w1
    else some w1

/-- `bool i2c_probe (uint_fast16_t i2cAddr)`. -/
def i2c_probe (fuel : Nat) (w : World) (i2cAddr : Nat) : Option (Bool × World) :=
  match wait_ready fuel w with
  | none => none
  | some (false, w1) => some (false, w1)
  | some (true, w1) =>
    let (st, w2) := HAL_I2C_IsDeviceReady w1 (wire_address i2cAddr) 4 10
    some (decide (st = HAL_OK), w2)

/-- `bool i2c_send (uint_fast16_t i2cAddr, uint8_t *buf, size_t size, bool block)`. -/
def i2c_send (fuel : Nat) (w : World) (i2cAddr : Nat) (buf : Nat) (size : Nat) (block : Bool) :
    Option (Bool × World) :=
  match wait_ready fuel w with
  | none => none
  | some (false, w1) => some (false, w1)
  | some (true, w1) =>
    let (st, w2) := HAL_I2C_Master_Transmit_IT w1 (wire_address i2cAddr) (Buf.ptr buf) (size % 2 ^ 16)
    let ok := decide (st = HAL_OK)
    if ok && block then
      match wait_ready fuel w2 with
      | none => none
      | some (false, w3) => some (false, w3)
      | some (true, w3) => some (ok, w3)
    else some (ok, w2)

/-- `bool i2c_receive (uint_fast16_t i2cAddr, uint8_t *buf, size_t size, bool block)`. -/
def i2c_receive (fuel : Nat) (w : World) (i2cAddr : Nat) (buf : Nat) (size : Nat) (block : Bool) :
    Option (Bool × World) :=
  match wait_ready fuel w with
  | none => none
  | some (false, w1) => some (false, w1)
  | some (true, w1) =>
    let (st, w2) := HAL_I2C_Master_Receive_IT w1 (wire_address i2cAddr) (Buf.ptr buf) (size % 2 ^ 16)
    let ok := decide (st = HAL_OK)
    if ok && block then
      match wait_ready fuel w2 with
      | none => none
      | some (false, w3) => some (false, w3)
      | some (true, w3) => some (ok, w3)
    else some (ok, w2)

/-- `void i2c_get_keycode (uint_fast16_t i2cAddr, keycode_callback_ptr callback)`. -/
def i2c_get_keycode (w : World) (i2cAddr : Nat) (callback : Option Nat) : World :=
  let w1 := { w with keycode := 0 }
  let w2 := { w1 with keypad_callback := callback }
  (HAL_I2C_Master_Receive_IT w2 (wire_address i2cAddr) Buf.keycode 1).2

/-- `void HAL_I2C_MasterRxCpltCallback(I2C_HandleTypeDef *hi2c)`. -/
def HAL_I2C_MasterRxCpltCallback (w : World) : World :=
  match w.keypad_callback with
  | some cb =>
    if w.keycode ≠ 0 then
      let w1 := { w with log := w.log ++ [Event.keypad_callback cb w.keycode] }
      { w1 with keypad_callback := none }
    else w
  | none => w

/-- A receive completion as the interrupt path performs it: when the receive
was the one started by `i2c_get_keycode` the peripheral has stored the byte
`k` in `keycode` (`some k`), otherwise `keycode` was not written (`none`);
then the HAL calls `HAL_I2C_MasterRxCpltCallback`. -/
def rx_complete (delivered : Option Nat) (w : World) : World :=
  match delivered with
  | some k => HAL_I2C_MasterRxCpltCallback { w with keycode := k % 2 ^ 8 }
  | none => HAL_I2C_MasterRxCpltCallback w

/-- A run of receive completions, in order. -/
def rx_completions (ds : List (Option Nat)) (w : World) : World :=
  ds.foldl (fun v d => rx_complete d v) w

/-- The callbacks invoked according to a log, with their arguments. -/
def invoked : List Event → List (Nat × Nat)
  | [] => []
  | Event.keypad_callback cb k :: l => (cb, k) :: invoked l
  | _ :: l => invoked l

/-- `nvs_transfer_result_t i2c_nvs_transfer (nvs_transfer_t *i2c, bool read)`;
the descriptor is returned as the call leaves it. -/
def i2c_nvs_transfer (cfg : Config) (fuel : Nat) (w : World) (i2c : nvs_transfer_t) (read : Bool) :
    Option (nvs_transfer_result_t × nvs_transfer_t × World) :=
  match busy_wait fuel w with
  | none => none
  | some w1 =>
    let sz := if i2c.word_addr_bytes = 2 then I2C_MEMADD_SIZE_16BIT else I2C_MEMADD_SIZE_8BIT
    let (ret, w2) :=
      if read then
        let (r, _, v) := HAL_I2C_Mem_Read w1 (((i2c.address % 2 ^ 8) <<< 1) % 2 ^ 16) i2c.word_addr sz
          (Buf.ptr i2c.data) i2c.count 100
        (r, v)
      else
        let (r, v) := HAL_I2C_Mem_Write w1 (((i2c.address % 2 ^ 8) <<< 1) % 2 ^ 16) i2c.word_addr sz
          (Buf.ptr i2c.data) i2c.count 100
        (r, if !cfg.EEPROM_IS_FRAM then delay_ms v 5 else v)
    let i2c1 := { i2c with data := i2c.data + i2c.count }
    some (if ret = HAL_OK then NVS_TransferResult_OK else NVS_TransferResult_Failed, i2c1, w2)

/-- `static const uint8_t tmc_addr = I2C_ADR_I2CBRIDGE << 1;`. -/
def tmc_addr (cfg : Config) : Nat :=
  (cfg.I2C_ADR_I2CBRIDGE <<< 1) % 2 ^ 8

/-- The first argument of the translation,
`(uint8_t)(driver ? (uint32_t)driver->cs_pin : 0)`. -/
def tmc_axis (driver : Option TMC2130_t) : Nat :=
  (match driver with
   | some d => d.cs_pin % 2 ^ 32
   | none => 0) % 2 ^ 8

/-- `static TMC2130_status_t TMC_I2C_ReadRegister (TMC2130_t *driver, TMC2130_datagram_t *reg)`;
returns `status.value` and the datagram as the call leaves it. -/
def TMC_I2C_ReadRegister (cfg : Config) (w : World) (driver : Option TMC2130_t)
    (reg : TMC2130_datagram_t) : Nat × TMC2130_datagram_t × World :=
  let status := 0
  let tmc_reg := w.TMCI2C_GetMapAddress (tmc_axis driver) reg.addr % 2 ^ 8
  if tmc_reg = 0xFF then (status, reg, w)
  else
    let (_, buffer, w1) :=
      HAL_I2C_Mem_Read w (tmc_addr cfg) tmc_reg I2C_MEMADD_SIZE_8BIT (Buf.stack [0, 0, 0, 0, 0]) 5 100
    let status := buffer.getD 0 0
    let reg1 := { reg with payload := buffer.getD 4 0 }
    let reg2 := { reg1 with payload := reg1.payload ||| to_uint32 (shl_int (buffer.getD 3 0) 8) }
    let reg3 := { reg2 with payload := reg2.payload ||| to_uint32 (shl_int (buffer.getD 2 0) 16) }
    let reg4 := { reg3 with payload := reg3.payload ||| to_uint32 (shl_int (buffer.getD 1 0) 24) }
    (status, reg4, w1)

/-- `static TMC2130_status_t TMC_I2C_WriteRegister (TMC2130_t *driver, TMC2130_datagram_t *reg)`;
returns `status.value` and the datagram as the call leaves it. -/
def TMC_I2C_WriteRegister (cfg : Config) (w : World) (driver : Option TMC2130_t)
    (reg : TMC2130_datagram_t) : Nat × TMC2130_datagram_t × World :=
  let status := 0
  let reg1 := { reg with addr := { reg.addr with write := 1 } }
  let tmc_reg := w.TMCI2C_GetMapAddress (tmc_axis driver) reg1.addr % 2 ^ 8
  let reg2 := { reg1 with addr := { reg1.addr with write := 0 } }
  if tmc_reg ≠ 0xFF then
    let buffer := [(reg2.payload >>> 24) &&& 0xFF, (reg2.payload >>> 16) &&& 0xFF,
                   (reg2.payload >>> 8) &&& 0xFF, reg2.payload &&& 0xFF]
    let (_, w1) := HAL_I2C_Mem_Write w (tmc_addr cfg) tmc_reg I2C_MEMADD_SIZE_8BIT (Buf.stack buffer) 4 100
    (status, reg2, w1)
  else (status, reg2, w)

/-! ## Vocabulary of the statements -/

/-- The calls made by `n` consecutive rounds of the polling loop in which the
bus was found not ready and the liveness callback was asked, the first round
reading answer `p` of the bus and answer `c` of the callback. -/
def roundsLog (busState : Nat → HAL_I2C_StateTypeDef) (blocking : Nat → Bool) :
    Nat → Nat → Nat → List Event
  | _, _, 0 => []
  | p, c, n + 1 =>
    Event.GetState (busState p) :: Event.stream_blocking_callback (blocking c) ::
      roundsLog busState blocking (p + 1) (c + 1) n

/-- The world after the polling loop went through `n` not-ready rounds and
then, when `ready`, made one more poll that found the bus ready. -/
def afterWait (w : World) (n : Nat) (ready : Bool) : World :=
  { w with
    polls := w.polls + n + (if ready then 1 else 0),
    calls := w.calls + n,
    log := w.log ++ roundsLog w.busState w.blocking w.polls w.calls n ++
      (if ready then [Event.GetState HAL_I2C_STATE_READY] else []) }

/-- The first `n` rounds from `w` on find the bus not ready and the caller
alive. -/
def busyAlive (w : World) (n : Nat) : Prop :=
  ∀ j, j < n → w.busState (w.polls + j) ≠ HAL_I2C_STATE_READY ∧ w.blocking (w.calls + j) = true

/-- The calls made by `n` consecutive polls of the bus state, the first one
reading answer `p`. -/
def pollsLog (busState : Nat → HAL_I2C_StateTypeDef) : Nat → Nat → List Event
  | _, 0 => []
  | p, n + 1 => Event.GetState (busState p) :: pollsLog busState (p + 1) n

/-- The world after the unconditional wait made `n` polls. -/
def afterBusyWait (w : World) (n : Nat) : World :=
  { w with polls := w.polls + n, log := w.log ++ pollsLog w.busState w.polls n }

/-! ## Concrete environments -/

/-- A bus that is found busy twice and idle from then on, a caller that stays
alive, HAL calls that succeed, a bridge that answers `01 10 20 30 40`, and a
translation that maps register index `i` to sub-address `i` (bit 7 carrying
the write-intent flag) and knows no register `0x7F`. -/
def sampleWorld : World :=
  { busState := fun k => if k < 2 then HAL_I2C_STATE_BUSY_TX else HAL_I2C_STATE_READY
    blocking := fun _ => true
    halResult := fun _ => HAL_OK
    rx := fun _ i => [0x01, 0x10, 0x20, 0x30, 0x40].getD i 0
    TMCI2C_GetMapAddress := fun _ a => if a.idx = 0x7F then 0xFF else a.idx + 0x80 * a.write
    polls := 0
    calls := 0
    ops := 0
    keycode := 0
    keypad_callback := none
    log := [] }

/-- The same environment with a caller that asks to stop at its second
callback. -/
def abortingWorld : World :=
  { sampleWorld with blocking := fun k => decide (k < 1) }

/-- A write of 16 bytes to word address `0x0100` (two address bytes) of the
device at 7-bit address `0x50`. -/
def sampleTransfer : nvs_transfer_t :=
  { address := 0x50, word_addr_bytes := 2, word_addr := 0x0100, count := 16, data := 0x20000000 }

/-- Bridge address and storage class of the sample configuration. -/
def sampleConfig : Config :=
  { I2C_ADR_I2CBRIDGE := 0x47, EEPROM_IS_FRAM := false }

/-! ## The polling loop -/

theorem afterWait_step (w : World) (n : Nat) (ready : Bool) :
    afterWait (stream_blocking_callback (HAL_I2C_GetState w).2).2 n ready
      = afterWait w (n + 1) ready := by
  simp only [afterWait, stream_blocking_callback, HAL_I2C_GetState, roundsLog]
  congr 1
  · omega
  · omega
  · simp [List.append_assoc]

theorem busyAlive_step (w : World) (n : Nat) (h : busyAlive w (n + 1)) :
    busyAlive (stream_blocking_callback (HAL_I2C_GetState w).2).2 n := by
  intro j hj
  have := h (j + 1) (by omega)
  simp only [stream_blocking_callback, HAL_I2C_GetState]
  rw [show w.polls + 1 + j = w.polls + (j + 1) by omega,
      show w.calls + 1 + j = w.calls + (j + 1) by omega]
  exact this

theorem wait_ready_step (fuel : Nat) (w : World)
    (hs : w.busState w.polls ≠ HAL_I2C_STATE_READY) (ha : w.blocking w.calls = true) :
    wait_ready (fuel + 1) w = wait_ready fuel (stream_blocking_callback (HAL_I2C_GetState w).2).2 := by
  simp [wait_ready, HAL_I2C_GetState, stream_blocking_callback, hs, ha]

theorem wait_ready_true (n : Nat) : ∀ (fuel : Nat) (w : World), n < fuel → busyAlive w n →
    w.busState (w.polls + n) = HAL_I2C_STATE_READY →
    wait_ready fuel w = some (true, afterWait w n true) := by
  induction n with
  | zero =>
    intro fuel w hf _ hr
    obtain ⟨f, rfl⟩ : ∃ f, fuel = f + 1 := ⟨fuel - 1, by omega⟩
    simp at hr
    simp [wait_ready, HAL_I2C_GetState, hr, afterWait, roundsLog]
  | succ n ih =>
    intro fuel w hf hb hr
    obtain ⟨f, rfl⟩ : ∃ f, fuel = f + 1 := ⟨fuel - 1, by omega⟩
    have h0 := hb 0 (by omega)
    simp at h0
    rw [wait_ready_step f w h0.1 h0.2, ← afterWait_step]
    apply ih f _ (by omega) (busyAlive_step w n hb)
    simp only [stream_blocking_callback, HAL_I2C_GetState]
    rw [show w.polls + 1 + n = w.polls + (n + 1) by omega]
    exact hr

theorem wait_ready_false (n : Nat) : ∀ (fuel : Nat) (w : World), n < fuel → busyAlive w n →
    w.busState (w.polls + n) ≠ HAL_I2C_STATE_READY → w.blocking (w.calls + n) = false →
    wait_ready fuel w = some (false, afterWait w (n + 1) false) := by
  induction n with
  | zero =>
    intro fuel w hf _ hr ha
    obtain ⟨f, rfl⟩ : ∃ f, fuel = f + 1 := ⟨fuel - 1, by omega⟩
    simp at hr ha
    simp [wait_ready, HAL_I2C_GetState, stream_blocking_callback, hr, ha, afterWait, roundsLog]
  | succ n ih =>
    intro fuel w hf hb hr ha
    obtain ⟨f, rfl⟩ : ∃ f, fuel = f + 1 := ⟨fuel - 1, by omega⟩
    have h0 := hb 0 (by omega)
    simp at h0
    rw [wait_ready_step f w h0.1 h0.2, ← afterWait_step]
    apply ih f _ (by omega) (busyAlive_step w n hb)
    · simp only [stream_blocking_callback, HAL_I2C_GetState]
      rw [show w.polls + 1 + n = w.polls + (n + 1) by omega]
      exact hr
    · simp only [stream_blocking_callback, HAL_I2C_GetState]
      rw [show w.calls + 1 + n = w.calls + (n + 1) by omega]
      exact ha

theorem wait_ready_inv : ∀ (fuel : Nat) (w : World) (r : Bool) (v : World),
    wait_ready fuel w = some (r, v) →
    ∃ n, n < fuel ∧ busyAlive w n ∧
      ((r = true ∧ w.busState (w.polls + n) = HAL_I2C_STATE_READY ∧ v = afterWait w n true) ∨
       (r = false ∧ w.busState (w.polls + n) ≠ HAL_I2C_STATE_READY ∧
         w.blocking (w.calls + n) = false ∧ v = afterWait w (n + 1) false)) := by
  intro fuel
  induction fuel with
  | zero => intro w r v h; simp [wait_ready] at h
  | succ f ih =>
    intro w r v h
    by_cases hs : w.busState w.polls = HAL_I2C_STATE_READY
    · refine ⟨0, by omega, fun j hj => absurd hj (by omega), ?_⟩
      simp [wait_ready, HAL_I2C_GetState, hs] at h
      left
      obtain ⟨h1, h2⟩ := h
      refine ⟨h1, by simpa using hs, ?_⟩
      rw [← h2]
      simp [afterWait, roundsLog]
    · by_cases ha : w.blocking w.calls = true
      · rw [wait_ready_step f w hs ha] at h
        obtain ⟨n, hn, hb, hcase⟩ := ih _ r v h
        refine ⟨n + 1, by omega, ?_, ?_⟩
        · intro j hj
          rcases j with _ | j
          · simpa using ⟨hs, ha⟩
          · have := hb j (by omega)
            simp only [stream_blocking_callback, HAL_I2C_GetState] at this
            rw [show w.polls + 1 + j = w.polls + (j + 1) by omega,
                show w.calls + 1 + j = w.calls + (j + 1) by omega] at this
            exact this
        · simp only [stream_blocking_callback, HAL_I2C_GetState] at hcase
          rw [show w.polls + 1 + n = w.polls + (n + 1) by omega,
              show w.calls + 1 + n = w.calls + (n + 1) by omega] at hcase
          have e1 := afterWait_step w n true
          have e2 := afterWait_step w (n + 1) false
          simp only [stream_blocking_callback, HAL_I2C_GetState] at e1 e2
          rw [e1, e2] at hcase
          exact hcase
      · refine ⟨0, by omega, fun j hj => absurd hj (by omega), ?_⟩
        have ha2 : w.blocking w.calls = false := by simpa using ha
        simp [wait_ready, HAL_I2C_GetState, stream_blocking_callback, hs, ha2] at h
        right
        obtain ⟨h1, h2⟩ := h
        refine ⟨h1, by simpa using hs, by simp [ha2], ?_⟩
        rw [← h2]
        simp [afterWait, roundsLog, ha2]

theorem roundsLog_mem (bs : Nat → HAL_I2C_StateTypeDef) (bl : Nat → Bool) (n : Nat) :
    ∀ (p c : Nat) (e : Event), e ∈ roundsLog bs bl p c n →
      e.isBusOp = false ∧ e.devAddress = none ∧ invoked [e] = [] := by
  induction n with
  | zero => intro p c e h; simp [roundsLog] at h
  | succ n ih =>
    intro p c e h
    simp only [roundsLog, List.mem_cons] at h
    rcases h with h | h | h
    · subst h; simp [Event.isBusOp, Event.devAddress, invoked]
    · subst h; simp [Event.isBusOp, Event.devAddress, invoked]
    · exact ih _ _ e h

theorem wait_ready_log (fuel : Nat) (w : World) (r : Bool) (v : World)
    (h : wait_ready fuel w = some (r, v)) :
    ∃ l, v.log = w.log ++ l ∧ ∀ e ∈ l, e.isBusOp = false ∧ e.devAddress = none := by
  obtain ⟨n, _, _, hc⟩ := wait_ready_inv fuel w r v h
  rcases hc with ⟨_, _, rfl⟩ | ⟨_, _, _, rfl⟩
  · refine ⟨roundsLog w.busState w.blocking w.polls w.calls n ++
      [Event.GetState HAL_I2C_STATE_READY], by simp [afterWait], ?_⟩
    intro e he
    simp only [List.mem_append, List.mem_singleton] at he
    rcases he with he | he
    · exact ⟨(roundsLog_mem _ _ _ _ _ e he).1, (roundsLog_mem _ _ _ _ _ e he).2.1⟩
    · subst he; simp [Event.isBusOp, Event.devAddress]
  · refine ⟨roundsLog w.busState w.blocking w.polls w.calls (n + 1), by simp [afterWait], ?_⟩
    intro e he
    exact ⟨(roundsLog_mem _ _ _ _ _ e he).1, (roundsLog_mem _ _ _ _ _ e he).2.1⟩

theorem wait_ready_frame (fuel : Nat) (w : World) (r : Bool) (v : World)
    (h : wait_ready fuel w = some (r, v)) :
    v.busState = w.busState ∧ v.blocking = w.blocking ∧ v.halResult = w.halResult ∧
      v.ops = w.ops ∧ v.keycode = w.keycode ∧ v.keypad_callback = w.keypad_callback := by
  obtain ⟨n, _, _, hc⟩ := wait_ready_inv fuel w r v h
  rcases hc with ⟨_, _, rfl⟩ | ⟨_, _, _, rfl⟩ <;> simp [afterWait]

/-! ## The unconditional wait of the storage path -/

theorem afterBusyWait_step (w : World) (n : Nat) :
    afterBusyWait (HAL_I2C_GetState w).2 n = afterBusyWait w (n + 1) := by
  simp only [afterBusyWait, HAL_I2C_GetState, pollsLog]
  congr 1
  · omega
  · simp [List.append_assoc]

theorem busy_wait_ready (n : Nat) : ∀ (fuel : Nat) (w : World), n < fuel →
    (∀ j, j < n → w.busState (w.polls + j) ≠ HAL_I2C_STATE_READY) →
    w.busState (w.polls + n) = HAL_I2C_STATE_READY →
    busy_wait fuel w = some (afterBusyWait w (n + 1)) := by
  induction n with
  | zero =>
    intro fuel w hf _ hr
    obtain ⟨f, rfl⟩ : ∃ f, fuel = f + 1 := ⟨fuel - 1, by omega⟩
    simp at hr
    simp [busy_wait, HAL_I2C_GetState, hr, afterBusyWait, pollsLog]
  | succ n ih =>
    intro fuel w hf hb hr
    obtain ⟨f, rfl⟩ : ∃ f, fuel = f + 1 := ⟨fuel - 1, by omega⟩
    have h0 := hb 0 (by omega)
    simp at h0
    have hstep : busy_wait (f + 1) w = busy_wait f (HAL_I2C_GetState w).2 := by
      simp [busy_wait, HAL_I2C_GetState, h0]
    have hrest := ih f (HAL_I2C_GetState w).2 (by omega)
      (by
        intro j hj
        have := hb (j + 1) (by omega)
        simp only [HAL_I2C_GetState]
        rw [show w.polls + 1 + j = w.polls + (j + 1) by omega]
        exact this)
      (by
        simp only [HAL_I2C_GetState]
        rw [show w.polls + 1 + n = w.polls + (n + 1) by omega]
        exact hr)
    rw [hstep, hrest, afterBusyWait_step]

/-- When the bus is found ready or the caller asks to stop at some round, there
is a first such round. -/
theorem first_stop (w : World)
    (h : ∃ n, w.busState (w.polls + n) = HAL_I2C_STATE_READY ∨ w.blocking (w.calls + n) = false) :
    ∃ m, busyAlive w m ∧
      (w.busState (w.polls + m) = HAL_I2C_STATE_READY ∨ w.blocking (w.calls + m) = false) := by
  classical
  refine ⟨Nat.find h, ?_, Nat.find_spec h⟩
  intro j hj
  have hmin := Nat.find_min h hj
  simp only [not_or] at hmin
  exact ⟨hmin.1, by simpa using hmin.2⟩

/-! ## C5: the abortable wait -/

/-- C5: for the abortable wait that opens `i2c_probe`, `i2c_send` and
`i2c_receive`, over every sequence of bus-state observations (`w.busState`)
and of liveness-callback results (`w.blocking`):
(1) the wait gives up if and only if the callback returns false at a round
that precedes the first observation of the ready state;
(2) the wait ends as soon as the bus is ever found ready or the callback ever
returns false;
(3) a wait that ended after `n` not-ready rounds made exactly the calls
poll, callback, ..., poll, callback (`n` pairs, every poll not ready),
followed by one poll that saw the ready state when it did not give up: one
callback per not-ready observation, none after a ready one, and the state
last observed is ready when the wait did not give up;
(4) when the wait gives up, the three functions return false and log no bus
operation. -/
theorem C5_abortable_wait (w : World) :
    ((∃ fuel v, wait_ready fuel w = some (false, v)) ↔
      ∃ n, w.blocking (w.calls + n) = false ∧
        ∀ j, j ≤ n → w.busState (w.polls + j) ≠ HAL_I2C_STATE_READY) ∧
    ((∃ n, w.busState (w.polls + n) = HAL_I2C_STATE_READY ∨ w.blocking (w.calls + n) = false) →
      ∃ fuel r v, wait_ready fuel w = some (r, v)) ∧
    (∀ fuel r v, wait_ready fuel w = some (r, v) →
      ∃ n, (∀ j, j < n → w.busState (w.polls + j) ≠ HAL_I2C_STATE_READY) ∧
        v.calls = w.calls + n ∧
        v.polls = w.polls + n + (if r then 1 else 0) ∧
        v.log = w.log ++ roundsLog w.busState w.blocking w.polls w.calls n ++
          (if r then [Event.GetState HAL_I2C_STATE_READY] else []) ∧
        (r = true → w.busState (w.polls + n) = HAL_I2C_STATE_READY)) ∧
    (∀ fuel v, wait_ready fuel w = some (false, v) →
      (∀ a, i2c_probe fuel w a = some (false, v)) ∧
      (∀ a buf size block, i2c_send fuel w a buf size block = some (false, v)) ∧
      (∀ a buf size block, i2c_receive fuel w a buf size block = some (false, v)) ∧
      ∃ l, v.log = w.log ++ l ∧ ∀ e ∈ l, e.isBusOp = false) := by
  refine ⟨⟨?_, ?_⟩, ?_, ?_, ?_⟩
  · rintro ⟨fuel, v, h⟩
    obtain ⟨n, _, hb, hc⟩ := wait_ready_inv fuel w false v h
    rcases hc with ⟨hr, _⟩ | ⟨_, hnr, hbl, _⟩
    · cases hr
    · refine ⟨n, hbl, ?_⟩
      intro j hj
      rcases Nat.lt_or_ge j n with hlt | hge
      · exact (hb j hlt).1
      · have : j = n := by omega
        subst this
        exact hnr
  · rintro ⟨n, hbl, hnr⟩
    obtain ⟨m, hb, hm⟩ := first_stop w ⟨n, Or.inr hbl⟩
    have hmn : m ≤ n := by
      by_contra hlt
      have := (hb n (by omega)).2
      rw [hbl] at this
      cases this
    rcases hm with hm | hm
    · exact absurd hm (hnr m hmn)
    · exact ⟨m + 1, _, wait_ready_false m (m + 1) w (by omega) hb (hnr m hmn) hm⟩
  · intro h
    obtain ⟨m, hb, hm⟩ := first_stop w h
    by_cases hr : w.busState (w.polls + m) = HAL_I2C_STATE_READY
    · exact ⟨m + 1, true, _, wait_ready_true m (m + 1) w (by omega) hb hr⟩
    · rcases hm with hm | hm
      · exact absurd hm hr
      · exact ⟨m + 1, false, _, wait_ready_false m (m + 1) w (by omega) hb hr hm⟩
  · intro fuel r v h
    obtain ⟨n, _, hb, hc⟩ := wait_ready_inv fuel w r v h
    rcases hc with ⟨rfl, hr, rfl⟩ | ⟨rfl, hnr, _, rfl⟩
    · exact ⟨n, fun j hj => (hb j hj).1, by simp [afterWait], by simp [afterWait],
        by simp [afterWait], fun _ => hr⟩
    · refine ⟨n + 1, ?_, by simp [afterWait], by simp [afterWait], by simp [afterWait], ?_⟩
      · intro j hj
        rcases Nat.lt_or_ge j n with hlt | hge
        · exact (hb j hlt).1
        · have : j = n := by omega
          subst this
          exact hnr
      · intro hf
        cases hf
  · intro fuel v h
    refine ⟨?_, ?_, ?_, ?_⟩
    · intro a
      simp [i2c_probe, h]
    · intro a buf size block
      simp [i2c_send, h]
    · intro a buf size block
      simp [i2c_receive, h]
    · obtain ⟨l, hl, hbus⟩ := wait_ready_log fuel w false v h
      exact ⟨l, hl, fun e he => (hbus e he).1⟩

/-- C5 at a concrete environment: the bus is busy, the caller stays alive for
one round and asks to stop in the second. -/
theorem C5_abortable_wait_witness :
    abortingWorld.blocking (abortingWorld.calls + 1) = false ∧
    (∀ j, j ≤ 1 → abortingWorld.busState (abortingWorld.polls + j) ≠ HAL_I2C_STATE_READY) ∧
    ∃ fuel v, wait_ready fuel abortingWorld = some (false, v) :=
  ⟨by decide, by decide,
   (C5_abortable_wait abortingWorld).1.2 ⟨1, by decide, by decide⟩⟩

/-! ## The motor-driver bridge -/

theorem shl_int_byte (b n : Nat) (hb : b < 256) (hn : n ≤ 24) :
    to_uint32 (shl_int b n) = b <<< n := by
  have hpow : (2 : Nat) ^ n ≤ 2 ^ 24 := Nat.pow_le_pow_right (by decide) hn
  have hlt : b * 2 ^ n < 2 ^ 32 := by
    calc b * 2 ^ n ≤ 255 * 2 ^ 24 := Nat.mul_le_mul (by omega) hpow
      _ < 2 ^ 32 := by decide
  have hcast : ((b : Int) * 2 ^ n) = ((b * 2 ^ n : Nat) : Int) := by push_cast; rfl
  rw [Nat.shiftLeft_eq]
  unfold to_uint32 shl_int int32_wrap
  rw [hcast]
  generalize b * 2 ^ n = m at hlt ⊢
  norm_num at hlt ⊢
  omega

theorem read_register_payload (cfg : Config) (w : World) (driver : Option TMC2130_t)
    (reg : TMC2130_datagram_t)
    (hmap : w.TMCI2C_GetMapAddress (tmc_axis driver) reg.addr % 2 ^ 8 ≠ 0xFF) :
    TMC_I2C_ReadRegister cfg w driver reg =
      (w.rx w.ops 0 % 2 ^ 8,
       { reg with payload := w.rx w.ops 4 % 2 ^ 8 ||| ((w.rx w.ops 3 % 2 ^ 8) <<< 8) |||
           ((w.rx w.ops 2 % 2 ^ 8) <<< 16) ||| ((w.rx w.ops 1 % 2 ^ 8) <<< 24) },
       { w with ops := w.ops + 1,
                log := w.log ++ [Event.Mem_Read (tmc_addr cfg)
                  (w.TMCI2C_GetMapAddress (tmc_axis driver) reg.addr % 2 ^ 8)
                  I2C_MEMADD_SIZE_8BIT (Buf.stack [0, 0, 0, 0, 0]) 5 100] }) := by
  have h1 := shl_int_byte (w.rx w.ops 1 % 2 ^ 8) 24 (Nat.mod_lt _ (by decide)) (by decide)
  have h2 := shl_int_byte (w.rx w.ops 2 % 2 ^ 8) 16 (Nat.mod_lt _ (by decide)) (by decide)
  have h3 := shl_int_byte (w.rx w.ops 3 % 2 ^ 8) 8 (Nat.mod_lt _ (by decide)) (by decide)
  simp only [TMC_I2C_ReadRegister, HAL_I2C_Mem_Read, if_neg hmap, List.range_succ, List.range_zero,
    List.nil_append, List.map_append, List.map_cons, List.map_nil, List.cons_append,
    List.getD_cons_zero, List.getD_cons_succ, h1, h2, h3]

/-! ## C1: the read of a supported register -/

/-- C1: when the translated sub-address of the register is not `0xFF`, and
`b 0 .. b 4` are the five bytes the bridge read leaves in the buffer,
`TMC_I2C_ReadRegister` returns a status of value `b 0` and sets the payload to
`b 4 | b 3 << 8 | b 2 << 16 | b 1 << 24`, a value below `2^32` (so equal to
itself modulo `2^32`) that does not depend on the previous payload, for every
`b 1` up to `0xFF`; the address of the register is kept.  The response
`01 10 20 30 40` gives status `0x01` and payload `0x10203040`. -/
theorem C1_read_register_assembles (cfg : Config) (w : World) (driver : Option TMC2130_t)
    (reg : TMC2130_datagram_t)
    (hmap : w.TMCI2C_GetMapAddress (tmc_axis driver) reg.addr % 2 ^ 8 ≠ 0xFF) :
    let b := fun i => w.rx w.ops i % 2 ^ 8
    let r := TMC_I2C_ReadRegister cfg w driver reg
    r.1 = b 0 ∧
    r.2.1.payload = (b 4 ||| (b 3 <<< 8) ||| (b 2 <<< 16) ||| (b 1 <<< 24)) % 2 ^ 32 ∧
    r.2.1.payload = b 4 ||| (b 3 <<< 8) ||| (b 2 <<< 16) ||| (b 1 <<< 24) ∧
    r.2.1.payload < 2 ^ 32 ∧
    r.2.1.addr = reg.addr ∧
    (∀ p, (TMC_I2C_ReadRegister cfg w driver { reg with payload := p }).2.1.payload
        = r.2.1.payload) ∧
    (b 0 = 0x01 → b 1 = 0x10 → b 2 = 0x20 → b 3 = 0x30 → b 4 = 0x40 →
      r.1 = 0x01 ∧ r.2.1.payload = 0x10203040) := by
  intro b r
  have hr : r = _ := read_register_payload cfg w driver reg hmap
  have hb : ∀ i, b i < 2 ^ 8 := fun i => Nat.mod_lt _ (by decide)
  have hsh : ∀ i n, n ≤ 24 → b i <<< n < 2 ^ 32 := by
    intro i n hn
    rw [Nat.shiftLeft_eq]
    have hpow : (2 : Nat) ^ n ≤ 2 ^ 24 := Nat.pow_le_pow_right (by decide) hn
    have h255 : b i ≤ 255 := by have := hb i; omega
    calc b i * 2 ^ n ≤ 255 * 2 ^ 24 := Nat.mul_le_mul h255 hpow
      _ < 2 ^ 32 := by decide
  have hpay : r.2.1.payload = b 4 ||| (b 3 <<< 8) ||| (b 2 <<< 16) ||| (b 1 <<< 24) := by
    rw [hr]
  have hlt : b 4 ||| (b 3 <<< 8) ||| (b 2 <<< 16) ||| (b 1 <<< 24) < 2 ^ 32 := by
    have h4 : b 4 < 2 ^ 32 := lt_trans (hb 4) (by decide)
    exact Nat.or_lt_two_pow (Nat.or_lt_two_pow (Nat.or_lt_two_pow h4 (hsh 3 8 (by decide)))
      (hsh 2 16 (by decide))) (hsh 1 24 (by decide))
  refine ⟨by rw [hr], ?_, hpay, hpay ▸ hlt, by rw [hr], ?_, ?_⟩
  · rw [hpay, Nat.mod_eq_of_lt hlt]
  · intro p
    rw [hpay, read_register_payload cfg w driver { reg with payload := p } hmap]
  · intro h0 h1 h2 h3 h4
    refine ⟨by rw [hr]; exact h0, ?_⟩
    rw [hpay, h1, h2, h3, h4]
    decide

/-- C1 at the response `01 10 20 30 40`, read into a register whose payload
was `0xFFFFFFFF`. -/
theorem C1_read_register_assembles_witness :
    sampleWorld.TMCI2C_GetMapAddress (tmc_axis none) ⟨0x6F, 0⟩ % 2 ^ 8 ≠ 0xFF ∧
    (TMC_I2C_ReadRegister sampleConfig sampleWorld none ⟨⟨0x6F, 0⟩, 0xFFFFFFFF⟩).1 = 0x01 ∧
    (TMC_I2C_ReadRegister sampleConfig sampleWorld none ⟨⟨0x6F, 0⟩, 0xFFFFFFFF⟩).2.1.payload
      = 0x10203040 :=
  ⟨by decide,
   (C1_read_register_assembles sampleConfig sampleWorld none ⟨⟨0x6F, 0⟩, 0xFFFFFFFF⟩
     (by decide)).2.2.2.2.2.2 rfl rfl rfl rfl rfl⟩

/-! ## C3: the read of an unsupported register -/

/-- C3: when the translated sub-address of the register is the sentinel `0xFF`,
`TMC_I2C_ReadRegister` returns a status of value 0, leaves the register
(payload and address) as it was, and leaves the world as it was: nothing is
logged, so no bus operation is issued. -/
theorem C3_read_register_unsupported (cfg : Config) (w : World) (driver : Option TMC2130_t)
    (reg : TMC2130_datagram_t)
    (hmap : w.TMCI2C_GetMapAddress (tmc_axis driver) reg.addr % 2 ^ 8 = 0xFF) :
    TMC_I2C_ReadRegister cfg w driver reg = (0, reg, w) ∧
    (TMC_I2C_ReadRegister cfg w driver reg).2.1.payload = reg.payload ∧
    (TMC_I2C_ReadRegister cfg w driver reg).2.1.addr = reg.addr ∧
    (TMC_I2C_ReadRegister cfg w driver reg).2.2.log = w.log := by
  have h : TMC_I2C_ReadRegister cfg w driver reg = (0, reg, w) := by
    simp only [TMC_I2C_ReadRegister, if_pos hmap]
  rw [h]
  exact ⟨rfl, rfl, rfl, rfl⟩

/-- C3 at the register `0x7F`, which the sample translation does not know. -/
theorem C3_read_register_unsupported_witness :
    sampleWorld.TMCI2C_GetMapAddress (tmc_axis (some ⟨3⟩)) ⟨0x7F, 0⟩ % 2 ^ 8 = 0xFF ∧
    TMC_I2C_ReadRegister sampleConfig sampleWorld (some ⟨3⟩) ⟨⟨0x7F, 0⟩, 0x12345678⟩
      = (0, ⟨⟨0x7F, 0⟩, 0x12345678⟩, sampleWorld) :=
  ⟨by decide,
   (C3_read_register_unsupported sampleConfig sampleWorld (some ⟨3⟩) ⟨⟨0x7F, 0⟩, 0x12345678⟩
     (by decide)).1⟩

/-! ## C2: the write of a register -/

/-- C2: `TMC_I2C_WriteRegister` asks the translation, for the chip-select
identity `(uint8_t)(driver ? (uint32_t)driver->cs_pin : 0)`, for the
sub-address `s` of the register with the write-intent flag set.  When `s` is
not `0xFF` it logs exactly one call, a memory write to the bridge device, at
wire address `(I2C_ADR_I2CBRIDGE << 1) mod 256`, at the 8-bit sub-address `s`,
of the 4 bytes `(p>>24)&0xFF, (p>>16)&0xFF, (p>>8)&0xFF, p&0xFF` of the
payload `p` with timeout 100 (the bytes `AA BB CC DD` for `0xAABBCCDD`); when
`s` is `0xFF` it leaves the world as it was.  In both cases the write-intent
flag is 0 on return, the index and the payload are unchanged and the status
is 0. -/
theorem C2_write_register (cfg : Config) (w : World) (driver : Option TMC2130_t)
    (reg : TMC2130_datagram_t) :
    let axis := (match driver with
      | some d => d.cs_pin % 2 ^ 32
      | none => 0) % 2 ^ 8
    let s := w.TMCI2C_GetMapAddress axis { idx := reg.addr.idx, write := 1 } % 2 ^ 8
    let bridge := (cfg.I2C_ADR_I2CBRIDGE <<< 1) % 2 ^ 8
    let p := reg.payload
    let r := TMC_I2C_WriteRegister cfg w driver reg
    (s ≠ 0xFF →
      r.2.2.log = w.log ++ [Event.Mem_Write bridge s I2C_MEMADD_SIZE_8BIT
        (Buf.stack [(p >>> 24) &&& 0xFF, (p >>> 16) &&& 0xFF, (p >>> 8) &&& 0xFF, p &&& 0xFF])
        4 100] ∧
      r.2.2 = { w with
        ops := w.ops + 1,
        log := w.log ++ [Event.Mem_Write bridge s I2C_MEMADD_SIZE_8BIT
          (Buf.stack [(p >>> 24) &&& 0xFF, (p >>> 16) &&& 0xFF, (p >>> 8) &&& 0xFF,
            p &&& 0xFF]) 4 100] } ∧
      (p = 0xAABBCCDD →
        r.2.2.log = w.log ++ [Event.Mem_Write bridge s I2C_MEMADD_SIZE_8BIT
          (Buf.stack [0xAA, 0xBB, 0xCC, 0xDD]) 4 100])) ∧
    (s = 0xFF → r.2.2 = w) ∧
    s < 2 ^ 8 ∧
    r.2.1.addr.write = 0 ∧ r.2.1.addr.idx = reg.addr.idx ∧ r.2.1.payload = p ∧ r.1 = 0 := by
  intro axis s bridge p r
  have hs : s < 2 ^ 8 := Nat.mod_lt _ (by decide)
  by_cases h : s = 0xFF
  · have hr : r = (0, { reg with addr := { reg.addr with write := 0 } }, w) := by
      simp only [r, TMC_I2C_WriteRegister]
      exact if_neg (not_not.mpr h)
    refine ⟨fun hne => absurd h hne, fun _ => by rw [hr], hs, ?_, ?_, ?_, ?_⟩ <;> rw [hr]
  · have hr : r = (0, { reg with addr := { reg.addr with write := 0 } },
        { w with
          ops := w.ops + 1,
          log := w.log ++ [Event.Mem_Write bridge s I2C_MEMADD_SIZE_8BIT
            (Buf.stack [(p >>> 24) &&& 0xFF, (p >>> 16) &&& 0xFF, (p >>> 8) &&& 0xFF,
              p &&& 0xFF]) 4 100] }) := by
      simp only [r, TMC_I2C_WriteRegister]
      exact if_pos h
    refine ⟨fun _ => ⟨by rw [hr], by rw [hr], ?_⟩, fun he => absurd he h, hs, ?_, ?_, ?_, ?_⟩
    · intro hp
      rw [hr]
      simp only [hp]
      rfl
    all_goals rw [hr]

/-- C2 at the payload `0xAABBCCDD` written to register `0x6C` of the driver
with chip-select 3, the bridge at 7-bit address `0x47`: the sample translation
answers `0xEC`, and the one call logged is the write of `AA BB CC DD` to
sub-address `0xEC` of the device at wire address `0x8E`. -/
theorem C2_write_register_witness :
    sampleWorld.TMCI2C_GetMapAddress 3 { idx := 0x6C, write := 1 } % 2 ^ 8 ≠ 0xFF ∧
    (TMC_I2C_WriteRegister sampleConfig sampleWorld (some ⟨3⟩) ⟨⟨0x6C, 0⟩, 0xAABBCCDD⟩).2.2.log
      = [Event.Mem_Write 0x8E 0xEC I2C_MEMADD_SIZE_8BIT
          (Buf.stack [0xAA, 0xBB, 0xCC, 0xDD]) 4 100] :=
  ⟨by decide,
   ((C2_write_register sampleConfig sampleWorld (some ⟨3⟩) ⟨⟨0x6C, 0⟩, 0xAABBCCDD⟩).1
     (by decide)).2.2 rfl⟩

/-! ## The keycode slot -/

theorem invoked_append (a b : List Event) : invoked (a ++ b) = invoked a ++ invoked b := by
  induction a with
  | nil => rfl
  | cons e a ih => cases e <;> simp [invoked, ih]

theorem rx_complete_idle (d : Option Nat) (v : World) (h : v.keypad_callback = none) :
    (rx_complete d v).log = v.log ∧ (rx_complete d v).keypad_callback = none := by
  cases d <;> simp [rx_complete, HAL_I2C_MasterRxCpltCallback, h]

theorem rx_completions_idle (ds : List (Option Nat)) : ∀ (v : World), v.keypad_callback = none →
    (rx_completions ds v).log = v.log ∧ (rx_completions ds v).keypad_callback = none := by
  induction ds with
  | nil => intro v h; exact ⟨rfl, h⟩
  | cons d ds ih =>
    intro v h
    have h1 := rx_complete_idle d v h
    have h2 := ih (rx_complete d v) h1.2
    simp only [rx_completions, List.foldl_cons] at h2 ⊢
    exact ⟨h2.1.trans h1.1, h2.2⟩

theorem rx_complete_pending (d : Option Nat) (v : World) (c : Nat)
    (h : v.keypad_callback = some c) :
    ((rx_complete d v).log = v.log ∧ (rx_complete d v).keypad_callback = some c) ∨
    (∃ k, k ≠ 0 ∧ (rx_complete d v).log = v.log ++ [Event.keypad_callback c k] ∧
      (rx_complete d v).keypad_callback = none) := by
  cases d with
  | none =>
    by_cases hk : v.keycode = 0
    · left; simp [rx_complete, HAL_I2C_MasterRxCpltCallback, h, hk]
    · right; exact ⟨v.keycode, hk, by simp [rx_complete, HAL_I2C_MasterRxCpltCallback, h, hk]⟩
  | some k =>
    by_cases hk : k % 256 = 0
    · left; simp [rx_complete, HAL_I2C_MasterRxCpltCallback, h, hk]
    · right; exact ⟨k % 256, hk, by simp [rx_complete, HAL_I2C_MasterRxCpltCallback, h, hk]⟩

theorem rx_completions_pending (ds : List (Option Nat)) : ∀ (v : World) (c : Nat),
    v.keypad_callback = some c →
    ∃ l, (rx_completions ds v).log = v.log ++ l ∧ l.length ≤ 1 ∧
      ∀ e ∈ l, ∃ k, k ≠ 0 ∧ e = Event.keypad_callback c k := by
  induction ds with
  | nil => intro v c _; exact ⟨[], by simp [rx_completions], by simp, by simp⟩
  | cons d ds ih =>
    intro v c h
    rcases rx_complete_pending d v c h with ⟨hl, hp⟩ | ⟨k, hk, hl, hp⟩
    · obtain ⟨l, hl2, hlen, hall⟩ := ih (rx_complete d v) c hp
      refine ⟨l, ?_, hlen, hall⟩
      simp only [rx_completions, List.foldl_cons] at hl2 ⊢
      rw [hl2, hl]
    · have h2 := rx_completions_idle ds (rx_complete d v) hp
      refine ⟨[Event.keypad_callback c k], ?_, by simp, ?_⟩
      · simp only [rx_completions, List.foldl_cons] at h2 ⊢
        rw [h2.1, hl]
      · intro e he
        exact ⟨k, hk, by simpa using he⟩

theorem unrelated_completions_zero (n : Nat) (v : World) (h : v.keycode = 0) :
    rx_completions (List.replicate n none) v = v := by
  induction n with
  | zero => rfl
  | succ n ih =>
    have h1 : rx_complete none v = v := by
      cases hc : v.keypad_callback <;> simp [rx_complete, HAL_I2C_MasterRxCpltCallback, hc, h]
    simp only [rx_completions, List.replicate_succ, List.foldl_cons, h1] at ih ⊢
    exact ih

/-! ## C6: a delivered key fires the callback once -/

/-- C6: for every callback `cb` and every non-zero byte `k`, after
`i2c_get_keycode(addr, cb)` a receive completion that delivered `k` into the
keycode slot invokes `cb` exactly once, with argument `k`, and clears the
pending callback; every later run of receive completions without a new
`i2c_get_keycode` (whatever those completions deliver) invokes no callback,
so the callbacks invoked since the request are `cb(k)` and nothing else. -/
theorem C6_keycode_fires_once (w : World) (addr cb k : Nat) (hk0 : k ≠ 0) (hk : k < 256)
    (later : List (Option Nat)) :
    let w1 := i2c_get_keycode w addr (some cb)
    let w2 := rx_complete (some k) w1
    w1.keypad_callback = some cb ∧
    w2.log = w1.log ++ [Event.keypad_callback cb k] ∧
    w2.keypad_callback = none ∧
    (rx_completions later w2).log = w2.log ∧
    (rx_completions later w2).keypad_callback = none ∧
    invoked (rx_completions later w2).log = invoked w.log ++ [(cb, k)] := by
  intro w1 w2
  have hmod : k % 256 = k := Nat.mod_eq_of_lt hk
  have hlog : w2.log = w1.log ++ [Event.keypad_callback cb k] := by
    simp [w2, w1, rx_complete, HAL_I2C_MasterRxCpltCallback, i2c_get_keycode,
      HAL_I2C_Master_Receive_IT, halCall, hmod, hk0]
  have hnone : w2.keypad_callback = none := by
    simp [w2, w1, rx_complete, HAL_I2C_MasterRxCpltCallback, i2c_get_keycode,
      HAL_I2C_Master_Receive_IT, halCall, hmod, hk0]
  have hlater := rx_completions_idle later w2 hnone
  refine ⟨rfl, hlog, hnone, hlater.1, hlater.2, ?_⟩
  rw [hlater.1, hlog]
  simp [w1, i2c_get_keycode, HAL_I2C_Master_Receive_IT, halCall, invoked_append, invoked]

/-- C6 at a concrete request: key `0x41` delivered to callback `7`, followed by
two more completions. -/
theorem C6_keycode_fires_once_witness :
    (0x41 : Nat) ≠ 0 ∧ (0x41 : Nat) < 256 ∧
    invoked (rx_completions [none, some 0x42]
      (rx_complete (some 0x41) (i2c_get_keycode sampleWorld 0x24 (some 7)))).log = [(7, 0x41)] :=
  ⟨by decide, by decide,
   (C6_keycode_fires_once sampleWorld 0x24 7 0x41 (by decide) (by decide) [none, some 0x42]).2.2.2.2.2⟩

/-! ## C7: a zero byte keeps the request, a new request replaces it -/

/-- C7: for every callback `cb`, after `i2c_get_keycode(addr, cb)` a receive
completion that delivered the byte 0 leaves the whole state as it was (no
callback invoked, `cb` still pending, keycode slot 0); a second
`i2c_get_keycode(addr2, cb2)` makes `cb2` the pending callback and resets the
keycode slot to 0, after which any run of receive completions invokes at most
one callback, and that one is `cb2`: a `cb` other than `cb2` is not invoked any
more. -/
theorem C7_zero_keeps_request (w : World) (addr cb addr2 cb2 : Nat) (later : List (Option Nat)) :
    let w1 := i2c_get_keycode w addr (some cb)
    let w2 := rx_complete (some 0) w1
    let w3 := i2c_get_keycode w2 addr2 (some cb2)
    w2 = w1 ∧ w2.log = w1.log ∧ w2.keypad_callback = some cb ∧ w2.keycode = 0 ∧
    w3.keypad_callback = some cb2 ∧ w3.keycode = 0 ∧
    (∃ l, (rx_completions later w3).log = w3.log ++ l ∧ l.length ≤ 1 ∧
      (∀ e ∈ l, ∃ k, k ≠ 0 ∧ e = Event.keypad_callback cb2 k) ∧
      (cb ≠ cb2 → ∀ k, Event.keypad_callback cb k ∉ l)) := by
  intro w1 w2 w3
  have h21 : w2 = w1 := rfl
  refine ⟨h21, rfl, rfl, rfl, rfl, rfl, ?_⟩
  obtain ⟨l, hl, hlen, hall⟩ := rx_completions_pending later w3 cb2 rfl
  refine ⟨l, hl, hlen, hall, ?_⟩
  intro hne k hmem
  obtain ⟨k2, _, he⟩ := hall _ hmem
  injection he with h1 _
  exact hne h1

/-- C7 at a concrete pair of requests: callback `7` is replaced by callback `8`,
and the key `0x41` delivered afterwards goes to `8`. -/
theorem C7_zero_keeps_request_witness :
    (7 : Nat) ≠ 8 ∧
    ∃ l, (rx_completions [some 0x41]
        (i2c_get_keycode (rx_complete (some 0) (i2c_get_keycode sampleWorld 0x24 (some 7)))
          0x24 (some 8))).log
        = (i2c_get_keycode (rx_complete (some 0) (i2c_get_keycode sampleWorld 0x24 (some 7)))
          0x24 (some 8)).log ++ l ∧
      ∀ k, Event.keypad_callback 7 k ∉ l :=
  ⟨by decide,
   match (C7_zero_keeps_request sampleWorld 0x24 7 0x24 8 [some 0x41]).2.2.2.2.2.2 with
   | ⟨l, hl, _, _, hne⟩ => ⟨l, hl, hne (by decide)⟩⟩

/-! ## C10: a zero byte and later unrelated completions -/

/-- C10, as the code has it: after `i2c_get_keycode(addr, cb)` whose completion
delivered the byte 0 the callback is left pending, and no number of later
receive completions that do not write the keycode slot invokes a callback or
changes the state; `cb` is invoked only when a later completion delivers a
non-zero byte `k` into the keycode slot, and then with that byte. -/
theorem C10_unrelated_completions_do_not_fire (w : World) (addr cb n k : Nat)
    (hk0 : k ≠ 0) (hk : k < 256) :
    let w1 := rx_complete (some 0) (i2c_get_keycode w addr (some cb))
    w1.keypad_callback = some cb ∧
    rx_completions (List.replicate n none) w1 = w1 ∧
    invoked (rx_completions (List.replicate n none) w1).log = invoked w.log ∧
    (rx_complete (some k) (rx_completions (List.replicate n none) w1)).log
      = w1.log ++ [Event.keypad_callback cb k] := by
  intro w1
  have hsame : rx_completions (List.replicate n none) w1 = w1 :=
    unrelated_completions_zero n w1 rfl
  have hmod : k % 256 = k := Nat.mod_eq_of_lt hk
  refine ⟨rfl, hsame, ?_, ?_⟩
  · rw [hsame]
    simp [w1, rx_complete, HAL_I2C_MasterRxCpltCallback, i2c_get_keycode,
      HAL_I2C_Master_Receive_IT, halCall, invoked_append, invoked]
  · rw [hsame]
    simp [w1, rx_complete, HAL_I2C_MasterRxCpltCallback, i2c_get_keycode,
      HAL_I2C_Master_Receive_IT, halCall, hmod, hk0]

/-- C10 at a concrete request: three unrelated completions change
nothing, the key `0x41` delivered afterwards reaches callback `7`. -/
theorem C10_unrelated_completions_do_not_fire_witness :
    (0x41 : Nat) ≠ 0 ∧ (0x41 : Nat) < 256 ∧
    invoked (rx_completions (List.replicate 3 none)
      (rx_complete (some 0) (i2c_get_keycode sampleWorld 0x24 (some 7)))).log = [] :=
  ⟨by decide, by decide,
   (C10_unrelated_completions_do_not_fire sampleWorld 0x24 7 3 0x41 (by decide) (by decide)).2.2.1⟩

/-- C10 as stated fails: after the request of callback `7` at address `0x24`
in the sample environment and a completion that delivered 0, there is no
number of unrelated receive completions after which callback `7` has been
invoked, with any argument. -/
theorem C10_counterexample :
    ¬ ∃ (n k : Nat), (7, k) ∈ invoked (rx_completions (List.replicate n none)
        (rx_complete (some 0) (i2c_get_keycode sampleWorld 0x24 (some 7)))).log := by
  rintro ⟨n, k, h⟩
  rw [unrelated_completions_zero n _ rfl] at h
  simp [rx_complete, HAL_I2C_MasterRxCpltCallback, i2c_get_keycode,
    HAL_I2C_Master_Receive_IT, halCall, sampleWorld, invoked] at h

/-! ## C4: what happens after the opening wait -/

theorem send_after_open (fuel : Nat) (w w1 : World) (i2cAddr buf size : Nat) (block : Bool)
    (hopen : wait_ready fuel w = some (true, w1)) :
    i2c_send fuel w i2cAddr buf size block =
      if w1.halResult w1.ops = HAL_OK then
        (if block then
          wait_ready fuel
            (HAL_I2C_Master_Transmit_IT w1 (wire_address i2cAddr) (Buf.ptr buf) (size % 2 ^ 16)).2
         else some (true,
            (HAL_I2C_Master_Transmit_IT w1 (wire_address i2cAddr) (Buf.ptr buf) (size % 2 ^ 16)).2))
      else some (false,
        (HAL_I2C_Master_Transmit_IT w1 (wire_address i2cAddr) (Buf.ptr buf) (size % 2 ^ 16)).2) := by
  simp only [i2c_send, hopen, HAL_I2C_Master_Transmit_IT, halCall]
  by_cases hok : w1.halResult w1.ops = HAL_OK
  · cases block
    · simp [hok]
    · simp only [hok, decide_True, Bool.and_self, if_true]
      cases hw : wait_ready fuel _ with
      | none => rfl
      | some p =>
        obtain ⟨r, v⟩ := p
        cases r <;> rfl
  · simp [hok]

theorem receive_after_open (fuel : Nat) (w w1 : World) (i2cAddr buf size : Nat) (block : Bool)
    (hopen : wait_ready fuel w = some (true, w1)) :
    i2c_receive fuel w i2cAddr buf size block =
      if w1.halResult w1.ops = HAL_OK then
        (if block then
          wait_ready fuel
            (HAL_I2C_Master_Receive_IT w1 (wire_address i2cAddr) (Buf.ptr buf) (size % 2 ^ 16)).2
         else some (true,
            (HAL_I2C_Master_Receive_IT w1 (wire_address i2cAddr) (Buf.ptr buf) (size % 2 ^ 16)).2))
      else some (false,
        (HAL_I2C_Master_Receive_IT w1 (wire_address i2cAddr) (Buf.ptr buf) (size % 2 ^ 16)).2) := by
  simp only [i2c_receive, hopen, HAL_I2C_Master_Receive_IT, halCall]
  by_cases hok : w1.halResult w1.ops = HAL_OK
  · cases block
    · simp [hok]
    · simp only [hok, decide_True, Bool.and_self, if_true]
      cases hw : wait_ready fuel _ with
      | none => rfl
      | some p =>
        obtain ⟨r, v⟩ := p
        cases r <;> rfl
  · simp [hok]

/-- C4: for `i2c_send`, and identically for `i2c_receive`, once the opening
wait has left the loop with the bus ready (world `w1`), with `tx` (`rx`) the
answer of the interrupt-driven start and the world right after it (no poll
and no liveness callback since `w1`, one logged start):
* a start that is not `HAL_OK` makes the call return false in that world;
* a successful start with `block = false` makes it return true in that world;
* a successful start with `block = true` makes the call the second wait run
  from that world: after `n` rounds that found the bus busy and the caller
  alive it returns true when the next poll sees the ready state, and false, with
  no further poll, when the next callback returns false. -/
theorem C4_send_receive_after_open (fuel : Nat) (w w1 : World) (i2cAddr buf size : Nat)
    (block : Bool) (hopen : wait_ready fuel w = some (true, w1)) :
    let tx := HAL_I2C_Master_Transmit_IT w1 (wire_address i2cAddr) (Buf.ptr buf) (size % 2 ^ 16)
    let rx := HAL_I2C_Master_Receive_IT w1 (wire_address i2cAddr) (Buf.ptr buf) (size % 2 ^ 16)
    (tx.2.polls = w1.polls ∧ tx.2.calls = w1.calls ∧
      tx.2.log = w1.log ++
        [Event.Master_Transmit_IT (wire_address i2cAddr) (Buf.ptr buf) (size % 2 ^ 16)]) ∧
    (tx.1 ≠ HAL_OK → i2c_send fuel w i2cAddr buf size block = some (false, tx.2)) ∧
    (tx.1 = HAL_OK → block = false →
      i2c_send fuel w i2cAddr buf size block = some (true, tx.2)) ∧
    (tx.1 = HAL_OK → block = true →
      i2c_send fuel w i2cAddr buf size block = wait_ready fuel tx.2 ∧
      (∀ n, n < fuel → busyAlive tx.2 n →
        tx.2.busState (tx.2.polls + n) = HAL_I2C_STATE_READY →
        i2c_send fuel w i2cAddr buf size block = some (true, afterWait tx.2 n true)) ∧
      (∀ n, n < fuel → busyAlive tx.2 n →
        tx.2.busState (tx.2.polls + n) ≠ HAL_I2C_STATE_READY →
        tx.2.blocking (tx.2.calls + n) = false →
        i2c_send fuel w i2cAddr buf size block = some (false, afterWait tx.2 (n + 1) false))) ∧
    (rx.2.polls = w1.polls ∧ rx.2.calls = w1.calls ∧
      rx.2.log = w1.log ++
        [Event.Master_Receive_IT (wire_address i2cAddr) (Buf.ptr buf) (size % 2 ^ 16)]) ∧
    (rx.1 ≠ HAL_OK → i2c_receive fuel w i2cAddr buf size block = some (false, rx.2)) ∧
    (rx.1 = HAL_OK → block = false →
      i2c_receive fuel w i2cAddr buf size block = some (true, rx.2)) ∧
    (rx.1 = HAL_OK → block = true →
      i2c_receive fuel w i2cAddr buf size block = wait_ready fuel rx.2 ∧
      (∀ n, n < fuel → busyAlive rx.2 n →
        rx.2.busState (rx.2.polls + n) = HAL_I2C_STATE_READY →
        i2c_receive fuel w i2cAddr buf size block = some (true, afterWait rx.2 n true)) ∧
      (∀ n, n < fuel → busyAlive rx.2 n →
        rx.2.busState (rx.2.polls + n) ≠ HAL_I2C_STATE_READY →
        rx.2.blocking (rx.2.calls + n) = false →
        i2c_receive fuel w i2cAddr buf size block = some (false, afterWait rx.2 (n + 1) false))) := by
  intro tx rx
  have hs := send_after_open fuel w w1 i2cAddr buf size block hopen
  have hr := receive_after_open fuel w w1 i2cAddr buf size block hopen
  have htx : tx.1 = w1.halResult w1.ops := rfl
  have hrx : rx.1 = w1.halResult w1.ops := rfl
  refine ⟨⟨rfl, rfl, rfl⟩, ?_, ?_, ?_, ⟨rfl, rfl, rfl⟩, ?_, ?_, ?_⟩
  · intro h
    rw [htx] at h
    rw [hs, if_neg h]
  · intro h hb
    rw [htx] at h
    rw [hs, if_pos h, hb]
    rfl
  · intro h hb
    rw [htx] at h
    have hcall : i2c_send fuel w i2cAddr buf size block = wait_ready fuel tx.2 := by
      rw [hs, if_pos h, hb]
      rfl
    refine ⟨hcall, ?_, ?_⟩
    · intro n hn hba hready
      rw [hcall]
      exact wait_ready_true n fuel tx.2 hn hba hready
    · intro n hn hba hbusy hstop
      rw [hcall]
      exact wait_ready_false n fuel tx.2 hn hba hbusy hstop
  · intro h
    rw [hrx] at h
    rw [hr, if_neg h]
  · intro h hb
    rw [hrx] at h
    rw [hr, if_pos h, hb]
    rfl
  · intro h hb
    rw [hrx] at h
    have hcall : i2c_receive fuel w i2cAddr buf size block = wait_ready fuel rx.2 := by
      rw [hr, if_pos h, hb]
      rfl
    refine ⟨hcall, ?_, ?_⟩
    · intro n hn hba hready
      rw [hcall]
      exact wait_ready_true n fuel rx.2 hn hba hready
    · intro n hn hba hbusy hstop
      rw [hcall]
      exact wait_ready_false n fuel rx.2 hn hba hbusy hstop

/-- C4 at a concrete environment: the opening wait sees the bus busy twice and
then ready, the start succeeds, and the non-blocking call returns true with
three polls and two callbacks in all. -/
theorem C4_send_receive_after_open_witness :
    wait_ready 5 sampleWorld = some (true, afterWait sampleWorld 2 true) ∧
    i2c_send 5 sampleWorld 0x24 0 1 false = some (true,
      (HAL_I2C_Master_Transmit_IT (afterWait sampleWorld 2 true)
        (wire_address 0x24) (Buf.ptr 0) (1 % 2 ^ 16)).2) :=
  ⟨rfl, (C4_send_receive_after_open 5 sampleWorld (afterWait sampleWorld 2 true) 0x24 0 1 false
    rfl).2.2.1 rfl rfl⟩

/-! ## C8: the storage transfer -/

/-- C8: for every descriptor and both directions, when the bus is found ready
at poll `n` (and not before), `i2c_nvs_transfer` returns, with enough fuel for
`n + 1` polls.  It has then made those polls and one memory-addressed transfer
(a read when `read`, a write otherwise) of `count` bytes at `word_addr` with
timeout 100, with a 16-bit memory address exactly when `word_addr_bytes` is 2
and an 8-bit one otherwise, followed by a 5 ms delay exactly when the transfer
is a write and the device is not FRAM, whatever the status of the write.  The
result is OK if and only if that transfer reported `HAL_OK`, Failed otherwise,
and in every case the descriptor comes back with `data` advanced by `count`
and its other fields unchanged. -/
theorem C8_nvs_transfer (cfg : Config) (w : World) (i2c : nvs_transfer_t) (read : Bool)
    (n fuel : Nat)
    (hbusy : ∀ j, j < n → w.busState (w.polls + j) ≠ HAL_I2C_STATE_READY)
    (hready : w.busState (w.polls + n) = HAL_I2C_STATE_READY) (hfuel : n < fuel) :
    let dev := ((i2c.address % 2 ^ 8) <<< 1) % 2 ^ 16
    let sz := if i2c.word_addr_bytes = 2 then I2C_MEMADD_SIZE_16BIT else I2C_MEMADD_SIZE_8BIT
    ∃ res v,
      i2c_nvs_transfer cfg fuel w i2c read
        = some (res, { i2c with data := i2c.data + i2c.count }, v) ∧
      (res = NVS_TransferResult_OK ↔ w.halResult w.ops = HAL_OK) ∧
      (res = NVS_TransferResult_Failed ↔ w.halResult w.ops ≠ HAL_OK) ∧
      v.log = w.log ++ pollsLog w.busState w.polls (n + 1) ++
        [if read then Event.Mem_Read dev i2c.word_addr sz (Buf.ptr i2c.data) i2c.count 100
         else Event.Mem_Write dev i2c.word_addr sz (Buf.ptr i2c.data) i2c.count 100] ++
        (if read = false ∧ cfg.EEPROM_IS_FRAM = false then [Event.delay_ms 5] else []) := by
  intro dev sz
  have hwait := busy_wait_ready n fuel w hfuel hbusy hready
  refine ⟨if w.halResult w.ops = HAL_OK then NVS_TransferResult_OK else NVS_TransferResult_Failed,
    { w with
      polls := w.polls + (n + 1),
      ops := w.ops + 1,
      log := w.log ++ pollsLog w.busState w.polls (n + 1) ++
        [if read then Event.Mem_Read dev i2c.word_addr sz (Buf.ptr i2c.data) i2c.count 100
         else Event.Mem_Write dev i2c.word_addr sz (Buf.ptr i2c.data) i2c.count 100] ++
        (if read = false ∧ cfg.EEPROM_IS_FRAM = false then [Event.delay_ms 5] else []) },
    ?_, ?_, ?_, rfl⟩
  · simp only [i2c_nvs_transfer, hwait]
    cases read <;> cases hf : cfg.EEPROM_IS_FRAM <;>
      simp [HAL_I2C_Mem_Read, HAL_I2C_Mem_Write, halCall, afterBusyWait, delay_ms, dev, sz]
  · by_cases hok : w.halResult w.ops = HAL_OK <;> simp [hok]
  · by_cases hok : w.halResult w.ops = HAL_OK <;> simp [hok]

/-- C8 at a concrete write: the bus is found busy twice and then ready, the
device is not FRAM, and the 16-byte write is reported successful. -/
theorem C8_nvs_transfer_witness :
    (∀ j, j < 2 → sampleWorld.busState (sampleWorld.polls + j) ≠ HAL_I2C_STATE_READY) ∧
    sampleWorld.busState (sampleWorld.polls + 2) = HAL_I2C_STATE_READY ∧
    2 < 3 ∧
    ∃ res v,
      i2c_nvs_transfer sampleConfig 3 sampleWorld sampleTransfer false
        = some (res, { sampleTransfer with data := 0x20000010 }, v) ∧
      (res = NVS_TransferResult_OK ↔ sampleWorld.halResult sampleWorld.ops = HAL_OK) :=
  ⟨by decide, by decide, by decide,
   match C8_nvs_transfer sampleConfig sampleWorld sampleTransfer false 2 3
     (by decide) (by decide) (by decide) with
   | ⟨res, v, h1, h2, _, _⟩ => ⟨res, v, h1, h2⟩⟩

/-! ## C9: the wire address -/

theorem wire_address_seven_bit (a : Nat) (ha : a < 128) : wire_address a = 2 * a := by
  unfold wire_address
  rw [Nat.shiftLeft_eq]
  omega

theorem pollsLog_mem (bs : Nat → HAL_I2C_StateTypeDef) (n : Nat) :
    ∀ (p : Nat) (e : Event), e ∈ pollsLog bs p n → e.isBusOp = false ∧ e.devAddress = none := by
  induction n with
  | zero => intro p e h; simp [pollsLog] at h
  | succ n ih =>
    intro p e h
    simp only [pollsLog, List.mem_cons] at h
    rcases h with h | h
    · subst h; simp [Event.isBusOp, Event.devAddress]
    · exact ih _ e h

theorem busy_wait_inv : ∀ (fuel : Nat) (w v : World), busy_wait fuel w = some v →
    ∃ n, v = afterBusyWait w n := by
  intro fuel
  induction fuel with
  | zero => intro w v h; simp [busy_wait] at h
  | succ f ih =>
    intro w v h
    by_cases hs : w.busState w.polls = HAL_I2C_STATE_READY
    · refine ⟨1, ?_⟩
      simp [busy_wait, HAL_I2C_GetState, hs] at h
      rw [← h]
      simp [afterBusyWait, pollsLog, hs]
    · have hstep : busy_wait (f + 1) w = busy_wait f (HAL_I2C_GetState w).2 := by
        simp [busy_wait, HAL_I2C_GetState, hs]
      rw [hstep] at h
      obtain ⟨n, hn⟩ := ih _ v h
      exact ⟨n + 1, by rw [hn, afterBusyWait_step]⟩

theorem started_log (fuel : Nat) (w1 : World) (e : Event) (block r : Bool) (v : World)
    (h : (if w1.halResult w1.ops = HAL_OK then
            (if block then wait_ready fuel (halCall w1 e).2 else some (true, (halCall w1 e).2))
          else some (false, (halCall w1 e).2)) = some (r, v)) :
    ∃ l2, v.log = w1.log ++ e :: l2 ∧ ∀ x ∈ l2, x.isBusOp = false ∧ x.devAddress = none := by
  by_cases hok : w1.halResult w1.ops = HAL_OK
  · rw [if_pos hok] at h
    cases block
    · simp only [Bool.false_eq_true, if_false, Option.some.injEq, Prod.mk.injEq] at h
      refine ⟨[], ?_, by simp⟩
      rw [← h.2]
      simp [halCall]
    · simp only [if_true] at h
      obtain ⟨l, hl, hbus⟩ := wait_ready_log fuel _ r v h
      refine ⟨l, ?_, hbus⟩
      rw [hl]
      simp [halCall]
  · rw [if_neg hok] at h
    simp only [Option.some.injEq, Prod.mk.injEq] at h
    refine ⟨[], ?_, by simp⟩
    rw [← h.2]
    simp [halCall]

theorem opened_log (fuel : Nat) (w w1 : World) (e : Event) (v : World) (l2 : List Event)
    (hopen : wait_ready fuel w = some (true, w1)) (hv : v.log = w1.log ++ e :: l2)
    (hl2 : ∀ x ∈ l2, x.isBusOp = false ∧ x.devAddress = none) :
    ∃ l, v.log = w.log ++ l ∧ (∀ x ∈ l, ∀ d, x.devAddress = some d → x = e) ∧ e ∈ l := by
  obtain ⟨l1, hl1, hbus⟩ := wait_ready_log fuel w true w1 hopen
  refine ⟨l1 ++ e :: l2, by rw [hv, hl1, List.append_assoc], ?_, by simp⟩
  intro x hx d hd
  simp only [List.mem_append, List.mem_cons] at hx
  rcases hx with hx | hx | hx
  · rw [(hbus x hx).2] at hd; cases hd
  · exact hx
  · rw [(hl2 x hx).2] at hd; cases hd

theorem probe_log (fuel : Nat) (w : World) (a : Nat) (r : Bool) (v : World)
    (h : i2c_probe fuel w a = some (r, v)) :
    ∃ l, v.log = w.log ++ l ∧
      (∀ x ∈ l, ∀ d, x.devAddress = some d → x = Event.IsDeviceReady (wire_address a) 4 10) ∧
      (∀ w1, wait_ready fuel w = some (true, w1) →
        Event.IsDeviceReady (wire_address a) 4 10 ∈ l) := by
  cases hw : wait_ready fuel w with
  | none => simp [i2c_probe, hw] at h
  | some p =>
    obtain ⟨r0, w1⟩ := p
    cases r0
    · simp only [i2c_probe, hw, Option.some.injEq, Prod.mk.injEq] at h
      obtain ⟨l, hl, hbus⟩ := wait_ready_log fuel w false w1 hw
      refine ⟨l, by rw [← h.2, hl], ?_, ?_⟩
      · intro x hx d hd
        rw [(hbus x hx).2] at hd; cases hd
      · intro w2 h2
        simp at h2
    · simp only [i2c_probe, hw, HAL_I2C_IsDeviceReady, halCall, Option.some.injEq,
        Prod.mk.injEq] at h
      obtain ⟨l, hl, hall, hmem⟩ := opened_log fuel w w1 (Event.IsDeviceReady (wire_address a) 4 10)
        v [] hw (by rw [← h.2]) (by simp)
      exact ⟨l, hl, hall, fun _ _ => hmem⟩

theorem send_log (fuel : Nat) (w : World) (a buf size : Nat) (block r : Bool) (v : World)
    (h : i2c_send fuel w a buf size block = some (r, v)) :
    ∃ l, v.log = w.log ++ l ∧
      (∀ x ∈ l, ∀ d, x.devAddress = some d →
        x = Event.Master_Transmit_IT (wire_address a) (Buf.ptr buf) (size % 2 ^ 16)) ∧
      (∀ w1, wait_ready fuel w = some (true, w1) →
        Event.Master_Transmit_IT (wire_address a) (Buf.ptr buf) (size % 2 ^ 16) ∈ l) := by
  cases hw : wait_ready fuel w with
  | none => simp [i2c_send, hw] at h
  | some p =>
    obtain ⟨r0, w1⟩ := p
    cases r0
    · simp only [i2c_send, hw, Option.some.injEq, Prod.mk.injEq] at h
      obtain ⟨l, hl, hbus⟩ := wait_ready_log fuel w false w1 hw
      refine ⟨l, by rw [← h.2, hl], ?_, ?_⟩
      · intro x hx d hd
        rw [(hbus x hx).2] at hd; cases hd
      · intro w2 h2
        simp at h2
    · rw [send_after_open fuel w w1 a buf size block hw] at h
      obtain ⟨l2, hv, hl2⟩ := started_log fuel w1
        (Event.Master_Transmit_IT (wire_address a) (Buf.ptr buf) (size % 2 ^ 16)) block r v h
      obtain ⟨l, hl, hall, hmem⟩ := opened_log fuel w w1 _ v l2 hw hv hl2
      exact ⟨l, hl, hall, fun _ _ => hmem⟩

theorem receive_log (fuel : Nat) (w : World) (a buf size : Nat) (block r : Bool) (v : World)
    (h : i2c_receive fuel w a buf size block = some (r, v)) :
    ∃ l, v.log = w.log ++ l ∧
      (∀ x ∈ l, ∀ d, x.devAddress = some d →
        x = Event.Master_Receive_IT (wire_address a) (Buf.ptr buf) (size % 2 ^ 16)) ∧
      (∀ w1, wait_ready fuel w = some (true, w1) →
        Event.Master_Receive_IT (wire_address a) (Buf.ptr buf) (size % 2 ^ 16) ∈ l) := by
  cases hw : wait_ready fuel w with
  | none => simp [i2c_receive, hw] at h
  | some p =>
    obtain ⟨r0, w1⟩ := p
    cases r0
    · simp only [i2c_receive, hw, Option.some.injEq, Prod.mk.injEq] at h
      obtain ⟨l, hl, hbus⟩ := wait_ready_log fuel w false w1 hw
      refine ⟨l, by rw [← h.2, hl], ?_, ?_⟩
      · intro x hx d hd
        rw [(hbus x hx).2] at hd; cases hd
      · intro w2 h2
        simp at h2
    · rw [receive_after_open fuel w w1 a buf size block hw] at h
      obtain ⟨l2, hv, hl2⟩ := started_log fuel w1
        (Event.Master_Receive_IT (wire_address a) (Buf.ptr buf) (size % 2 ^ 16)) block r v h
      obtain ⟨l, hl, hall, hmem⟩ := opened_log fuel w w1 _ v l2 hw hv hl2
      exact ⟨l, hl, hall, fun _ _ => hmem⟩

theorem nvs_transfer_log (cfg : Config) (fuel : Nat) (w : World) (i2c : nvs_transfer_t)
    (read : Bool) (res : nvs_transfer_result_t) (d : nvs_transfer_t) (v : World)
    (h : i2c_nvs_transfer cfg fuel w i2c read = some (res, d, v)) :
    ∃ l, v.log = w.log ++ l ∧
      (∀ x ∈ l, ∀ dd, x.devAddress = some dd → dd = ((i2c.address % 2 ^ 8) <<< 1) % 2 ^ 16) ∧
      (∃ x ∈ l, x.devAddress = some (((i2c.address % 2 ^ 8) <<< 1) % 2 ^ 16)) := by
  cases hb : busy_wait fuel w with
  | none => simp [i2c_nvs_transfer, hb] at h
  | some w1 =>
    obtain ⟨n, rfl⟩ := busy_wait_inv fuel w w1 hb
    simp only [i2c_nvs_transfer, hb, Option.some.injEq, Prod.mk.injEq] at h
    obtain ⟨_, _, hv⟩ := h
    have key : ∃ (e : Event) (l2 : List Event),
        v.log = w.log ++ (pollsLog w.busState w.polls n ++ e :: l2) ∧
        e.devAddress = some (((i2c.address % 2 ^ 8) <<< 1) % 2 ^ 16) ∧
        ∀ x ∈ l2, x.devAddress = none := by
      rw [← hv]
      cases read <;> cases hf : cfg.EEPROM_IS_FRAM
      · exact ⟨Event.Mem_Write (((i2c.address % 2 ^ 8) <<< 1) % 2 ^ 16) i2c.word_addr
            (if i2c.word_addr_bytes = 2 then I2C_MEMADD_SIZE_16BIT else I2C_MEMADD_SIZE_8BIT)
            (Buf.ptr i2c.data) i2c.count 100, [Event.delay_ms 5],
          by simp [HAL_I2C_Mem_Write, halCall, afterBusyWait, delay_ms, hf], rfl,
          by simp [Event.devAddress]⟩
      · exact ⟨Event.Mem_Write (((i2c.address % 2 ^ 8) <<< 1) % 2 ^ 16) i2c.word_addr
            (if i2c.word_addr_bytes = 2 then I2C_MEMADD_SIZE_16BIT else I2C_MEMADD_SIZE_8BIT)
            (Buf.ptr i2c.data) i2c.count 100, [],
          by simp [HAL_I2C_Mem_Write, halCall, afterBusyWait, delay_ms, hf], rfl, by simp⟩
      · exact ⟨Event.Mem_Read (((i2c.address % 2 ^ 8) <<< 1) % 2 ^ 16) i2c.word_addr
            (if i2c.word_addr_bytes = 2 then I2C_MEMADD_SIZE_16BIT else I2C_MEMADD_SIZE_8BIT)
            (Buf.ptr i2c.data) i2c.count 100, [],
          by simp [HAL_I2C_Mem_Read, afterBusyWait], rfl, by simp⟩
      · exact ⟨Event.Mem_Read (((i2c.address % 2 ^ 8) <<< 1) % 2 ^ 16) i2c.word_addr
            (if i2c.word_addr_bytes = 2 then I2C_MEMADD_SIZE_16BIT else I2C_MEMADD_SIZE_8BIT)
            (Buf.ptr i2c.data) i2c.count 100, [],
          by simp [HAL_I2C_Mem_Read, afterBusyWait], rfl, by simp⟩
    obtain ⟨e, l2, hlog, hdev, hl2⟩ := key
    refine ⟨_, hlog, ?_, ⟨e, by simp, hdev⟩⟩
    intro x hx dd hd
    simp only [List.mem_append, List.mem_cons] at hx
    rcases hx with hx | hx | hx
    · rw [(pollsLog_mem _ _ _ x hx).2] at hd; cases hd
    · subst hx
      rw [hdev] at hd
      exact (Option.some.inj hd).symm
    · rw [hl2 x hx] at hd; cases hd

theorem nvs_transfer_run (cfg : Config) (w : World) (i2c : nvs_transfer_t) (read : Bool)
    (n fuel : Nat)
    (hbusy : ∀ j, j < n → w.busState (w.polls + j) ≠ HAL_I2C_STATE_READY)
    (hready : w.busState (w.polls + n) = HAL_I2C_STATE_READY) (hfuel : n < fuel) :
    i2c_nvs_transfer cfg fuel w i2c read
      = some (if w.halResult w.ops = HAL_OK then NVS_TransferResult_OK
              else NVS_TransferResult_Failed,
          { i2c with data := i2c.data + i2c.count },
          { w with
            polls := w.polls + (n + 1),
            ops := w.ops + 1,
            log := w.log ++ pollsLog w.busState w.polls (n + 1) ++
              [if read then
                 Event.Mem_Read (((i2c.address % 2 ^ 8) <<< 1) % 2 ^ 16) i2c.word_addr
                   (if i2c.word_addr_bytes = 2 then I2C_MEMADD_SIZE_16BIT
                    else I2C_MEMADD_SIZE_8BIT) (Buf.ptr i2c.data) i2c.count 100
               else
                 Event.Mem_Write (((i2c.address % 2 ^ 8) <<< 1) % 2 ^ 16) i2c.word_addr
                   (if i2c.word_addr_bytes = 2 then I2C_MEMADD_SIZE_16BIT
                    else I2C_MEMADD_SIZE_8BIT) (Buf.ptr i2c.data) i2c.count 100] ++
              (if read = false ∧ cfg.EEPROM_IS_FRAM = false then [Event.delay_ms 5] else []) }) := by
  have hwait := busy_wait_ready n fuel w hfuel hbusy hready
  simp only [i2c_nvs_transfer, hwait]
  cases read <;> cases hf : cfg.EEPROM_IS_FRAM <;>
    simp [HAL_I2C_Mem_Read, HAL_I2C_Mem_Write, halCall, afterBusyWait, delay_ms]

theorem probe_after_open (fuel : Nat) (w w1 : World) (i2cAddr : Nat)
    (hopen : wait_ready fuel w = some (true, w1)) :
    i2c_probe fuel w i2cAddr = some (decide (w1.halResult w1.ops = HAL_OK),
      { w1 with
        ops := w1.ops + 1,
        log := w1.log ++ [Event.IsDeviceReady (wire_address i2cAddr) 4 10] }) := by
  simp only [i2c_probe, hopen, HAL_I2C_IsDeviceReady, halCall]

/-- C9: for every valid 7-bit device address `a` (`a < 128`) the wire address
is `a << 1 = 2 * a`: it fits in 8 bits, its bit 0 is clear, its upper seven
bits are `a`, and two different 7-bit addresses never give the same wire
address.  It is the device address that `i2c_probe`, `i2c_send`,
`i2c_receive`, `i2c_get_keycode` and `i2c_nvs_transfer` hand to the
peripheral:
* once the opening wait has found the bus ready (world `w1`), `i2c_probe`
  returns, having asked in `w1` for `HAL_I2C_IsDeviceReady` at `2 * a` with 4
  trials and timeout 10, and `i2c_send` (`i2c_receive`) has started in `w1`
  the interrupt-driven transmit (receive) at `2 * a`, whatever the start
  answers and whether or not the call then blocks;
* `i2c_get_keycode` starts in every world the one-byte receive at `2 * a`;
* `i2c_nvs_transfer` for a descriptor of address `a`, once the bus is found
  ready, returns after one memory transfer at `2 * a`;
* and whenever one of these calls returns, every call it logged that carries a
  device address carries `2 * a`. -/
theorem C9_wire_address (a : Nat) (ha : a < 128) :
    (wire_address a = a <<< 1 ∧ wire_address a = 2 * a ∧ wire_address a < 2 ^ 8 ∧
      (wire_address a).testBit 0 = false ∧ wire_address a >>> 1 = a ∧
      ∀ b, b < 128 → wire_address b = wire_address a → b = a) ∧
    (∀ fuel w w1, wait_ready fuel w = some (true, w1) →
      i2c_probe fuel w a = some (decide (w1.halResult w1.ops = HAL_OK),
        { w1 with
          ops := w1.ops + 1,
          log := w1.log ++ [Event.IsDeviceReady (2 * a) 4 10] })) ∧
    (∀ fuel w w1 buf size block, wait_ready fuel w = some (true, w1) →
      let started : World :=
        { w1 with
          ops := w1.ops + 1,
          log := w1.log ++ [Event.Master_Transmit_IT (2 * a) (Buf.ptr buf) (size % 2 ^ 16)] }
      i2c_send fuel w a buf size block =
        if w1.halResult w1.ops = HAL_OK then
          (if block then wait_ready fuel started else some (true, started))
        else some (false, started)) ∧
    (∀ fuel w w1 buf size block, wait_ready fuel w = some (true, w1) →
      let started : World :=
        { w1 with
          ops := w1.ops + 1,
          log := w1.log ++ [Event.Master_Receive_IT (2 * a) (Buf.ptr buf) (size % 2 ^ 16)] }
      i2c_receive fuel w a buf size block =
        if w1.halResult w1.ops = HAL_OK then
          (if block then wait_ready fuel started else some (true, started))
        else some (false, started)) ∧
    (∀ w cb, i2c_get_keycode w a cb =
      { w with
        keycode := 0,
        keypad_callback := cb,
        ops := w.ops + 1,
        log := w.log ++ [Event.Master_Receive_IT (2 * a) Buf.keycode 1] }) ∧
    (∀ cfg fuel w i2c read n, i2c.address = a →
      (∀ j, j < n → w.busState (w.polls + j) ≠ HAL_I2C_STATE_READY) →
      w.busState (w.polls + n) = HAL_I2C_STATE_READY → n < fuel →
      ∃ res d v, i2c_nvs_transfer cfg fuel w i2c read = some (res, d, v) ∧
        v.log = w.log ++ pollsLog w.busState w.polls (n + 1) ++
          [if read then
             Event.Mem_Read (2 * a) i2c.word_addr
               (if i2c.word_addr_bytes = 2 then I2C_MEMADD_SIZE_16BIT else I2C_MEMADD_SIZE_8BIT)
               (Buf.ptr i2c.data) i2c.count 100
           else
             Event.Mem_Write (2 * a) i2c.word_addr
               (if i2c.word_addr_bytes = 2 then I2C_MEMADD_SIZE_16BIT else I2C_MEMADD_SIZE_8BIT)
               (Buf.ptr i2c.data) i2c.count 100] ++
          (if read = false ∧ cfg.EEPROM_IS_FRAM = false then [Event.delay_ms 5] else [])) ∧
    (∀ fuel w r v, i2c_probe fuel w a = some (r, v) →
      ∃ l, v.log = w.log ++ l ∧
        (∀ x ∈ l, ∀ d, x.devAddress = some d → d = 2 * a) ∧
        (∀ w1, wait_ready fuel w = some (true, w1) → Event.IsDeviceReady (2 * a) 4 10 ∈ l)) ∧
    (∀ fuel w buf size block r v, i2c_send fuel w a buf size block = some (r, v) →
      ∃ l, v.log = w.log ++ l ∧
        (∀ x ∈ l, ∀ d, x.devAddress = some d → d = 2 * a) ∧
        (∀ w1, wait_ready fuel w = some (true, w1) →
          Event.Master_Transmit_IT (2 * a) (Buf.ptr buf) (size % 2 ^ 16) ∈ l)) ∧
    (∀ fuel w buf size block r v, i2c_receive fuel w a buf size block = some (r, v) →
      ∃ l, v.log = w.log ++ l ∧
        (∀ x ∈ l, ∀ d, x.devAddress = some d → d = 2 * a) ∧
        (∀ w1, wait_ready fuel w = some (true, w1) →
          Event.Master_Receive_IT (2 * a) (Buf.ptr buf) (size % 2 ^ 16) ∈ l)) ∧
    (∀ cfg fuel w i2c read res d v, i2c.address = a →
      i2c_nvs_transfer cfg fuel w i2c read = some (res, d, v) →
      ∃ l, v.log = w.log ++ l ∧
        (∀ x ∈ l, ∀ dd, x.devAddress = some dd → dd = 2 * a) ∧
        (∃ x ∈ l, x.devAddress = some (2 * a))) := by
  have hw := wire_address_seven_bit a ha
  refine ⟨⟨?_, hw, ?_, ?_, ?_, ?_⟩, ?_, ?_, ?_, ?_, ?_, ?_, ?_, ?_, ?_⟩
  · rw [hw, Nat.shiftLeft_eq]; omega
  · rw [hw]; norm_num; omega
  · rw [hw, Nat.testBit_zero]; simp
  · rw [hw, Nat.shiftRight_eq_div_pow]; omega
  · intro b hb hab
    rw [hw, wire_address_seven_bit b hb] at hab
    omega
  · intro fuel w w1 hopen
    rw [probe_after_open fuel w w1 a hopen, hw]
  · intro fuel w w1 buf size block hopen started
    rw [send_after_open fuel w w1 a buf size block hopen, hw]
    rfl
  · intro fuel w w1 buf size block hopen started
    rw [receive_after_open fuel w w1 a buf size block hopen, hw]
    rfl
  · intro w cb
    simp only [i2c_get_keycode, HAL_I2C_Master_Receive_IT, halCall, hw]
  · intro cfg fuel w i2c read n hadr hbusy hready hfuel
    have hdev : ((i2c.address % 2 ^ 8) <<< 1) % 2 ^ 16 = 2 * a := by
      rw [hadr, Nat.shiftLeft_eq]; omega
    have hrun := nvs_transfer_run cfg w i2c read n fuel hbusy hready hfuel
    rw [hdev] at hrun
    exact ⟨_, _, _, hrun, rfl⟩
  · intro fuel w r v h
    obtain ⟨l, hl, hall, hmem⟩ := probe_log fuel w a r v h
    rw [hw] at hall hmem
    refine ⟨l, hl, ?_, hmem⟩
    intro x hx d hd
    rw [hall x hx d hd] at hd
    exact (Option.some.inj hd).symm
  · intro fuel w buf size block r v h
    obtain ⟨l, hl, hall, hmem⟩ := send_log fuel w a buf size block r v h
    rw [hw] at hall hmem
    refine ⟨l, hl, ?_, hmem⟩
    intro x hx d hd
    rw [hall x hx d hd] at hd
    exact (Option.some.inj hd).symm
  · intro fuel w buf size block r v h
    obtain ⟨l, hl, hall, hmem⟩ := receive_log fuel w a buf size block r v h
    rw [hw] at hall hmem
    refine ⟨l, hl, ?_, hmem⟩
    intro x hx d hd
    rw [hall x hx d hd] at hd
    exact (Option.some.inj hd).symm
  · intro cfg fuel w i2c read res d v hadr h
    have hdev : ((i2c.address % 2 ^ 8) <<< 1) % 2 ^ 16 = 2 * a := by
      rw [hadr, Nat.shiftLeft_eq]; omega
    obtain ⟨l, hl, hall, hmem⟩ := nvs_transfer_log cfg fuel w i2c read res d v h
    rw [hdev] at hall hmem
    exact ⟨l, hl, hall, hmem⟩

/-- C9 at the keypad address `0x24`: the wire address is `0x48`; a probe in the
sample environment (bus busy twice, then ready) returns true after asking for
`HAL_I2C_IsDeviceReady` at `0x48`, and `i2c_get_keycode` starts its receive at
`0x48`. -/
theorem C9_wire_address_witness :
    (0x24 : Nat) < 128 ∧ wire_address 0x24 = 0x48 ∧
    wait_ready 5 sampleWorld = some (true, afterWait sampleWorld 2 true) ∧
    (i2c_probe 5 sampleWorld 0x24).map (fun r => (r.1, r.2.log)) = some (true,
      [Event.GetState HAL_I2C_STATE_BUSY_TX, Event.stream_blocking_callback true,
       Event.GetState HAL_I2C_STATE_BUSY_TX, Event.stream_blocking_callback true,
       Event.GetState HAL_I2C_STATE_READY, Event.IsDeviceReady 0x48 4 10]) ∧
    (i2c_get_keycode sampleWorld 0x24 (some 7)).log
      = [Event.Master_Receive_IT 0x48 Buf.keycode 1] :=
  ⟨by decide, (C9_wire_address 0x24 (by decide)).1.2.1, rfl,
   by rw [(C9_wire_address 0x24 (by decide)).2.1 5 sampleWorld (afterWait sampleWorld 2 true) rfl]
      rfl,
   by rw [(C9_wire_address 0x24 (by decide)).2.2.2.2.1 sampleWorld (some 7)]
      rfl⟩

end I2C
